import Mathlib

/-!
Verification development for the file-tracking core of a component-based
build tool.  Two source units are embedded:

* the Change-Set engine `DataToPersist` (pending file writes, removals and
  symlinks, with insertion-time collision checking, commit-time validation,
  phased commit and path rebasing);
* the add resolver `addAction` (candidate component construction,
  reconciliation with the persistent component index, duplicate detection,
  index persistence).

Paths are modeled in canonical segment form: an absoluteness flag plus the
list of path segments, each segment nonempty and free of separators.  The
string operations of the source (`startsWith` with a trailing separator,
`isAbsolute`, `join`) are mirrored on this representation.
-/

/-- Canonical path: absoluteness flag plus separator-free segments. -/
structure NPath where
  abs : Bool
  segs : List String
deriving DecidableEq, Repr

/-- The empty relative path, the model of the empty path string. -/
def NPath.emptyP : NPath := ⟨false, []⟩

/-- node `path.isAbsolute`. -/
def NPath.isAbsolute (p : NPath) : Bool := p.abs

/-- node `path.join b p`: segment concatenation.  (When `p` is absolute node
drops its leading separator, which is again segment concatenation.) -/
def NPath.joinP (b p : NPath) : NPath := ⟨b.abs, b.segs ++ p.segs⟩

/-- The string test `p.startsWith (q ++ path.sep)` on canonical paths.
When `q` has no segments, `q ++ sep` is the string "/" (for relative `q`),
a prefix of exactly the absolute path strings, or "//" (for absolute `q`),
a prefix of no canonical path string.  Otherwise it asks that the segment
list of `q` be a proper prefix of that of `p`, with equal absoluteness. -/
def dirStartsWith (p q : NPath) : Bool :=
  if q.segs.isEmpty then !q.abs && p.abs
  else q.abs == p.abs && !(q.segs == p.segs) && q.segs.isPrefixOf p.segs

/-- Strict directory-ancestor relation: `a` names a directory strictly
containing `b` (the relation the specification's collision invariant is
about; the empty path is not an ancestor of anything). -/
def strictAncB (a b : NPath) : Bool :=
  !a.segs.isEmpty && a.abs == b.abs && a.segs.isPrefixOf b.segs && !(a.segs == b.segs)

/-! ## Change-Set engine: data model (from `DataToPersist`) -/

/-- A pending file write.  As in the vinyl files of the source, a file
carries a `base` directory and a relative remainder; its full `path` is
their join.  `override` is the `overrideExisting` flag, `contents` the
pending contents. -/
structure PFile where
  base : NPath
  rel : List String
  contents : String
  override : Bool
deriving DecidableEq, Repr

/-- `file.path` of a vinyl file: join of base and relative part. -/
def PFile.path (f : PFile) : NPath := ⟨f.base.abs, f.base.segs ++ f.rel⟩

/-- A pending removal (`RemovePath`). -/
structure RemovePath where
  path : NPath
  removeItsDirIfEmpty : Bool
deriving DecidableEq, Repr

/-- A pending symlink (`Symlink`): existing source, new destination. -/
structure SymlinkP where
  src : NPath
  dest : NPath
deriving DecidableEq, Repr

/-- The Change-Set: pending writes, symlinks and removals. -/
structure DataToPersist where
  files : List PFile
  symlinks : List SymlinkP
  remove : List RemovePath
deriving DecidableEq, Repr

/-- The empty Change-Set (the constructor). -/
def DataToPersist.emptyD : DataToPersist := ⟨[], [], []⟩

/-- Structured rendering of the Error objects `DataToPersist` throws. -/
inductive PersistErr where
  /-- "failed adding a file into DataToPersist as it does not have a path
  property" (the inserted file's path string is empty). -/
  | emptyFilePath
  /-- "unable to add the file A, because another file B is going to be
  written. one of them is a directory of the other one". -/
  | dirCollision (newPath existingPath : NPath)
  /-- "DataToPersist expects p to be absolute, got relative". -/
  | expectedAbsolute (p : NPath)
  /-- "DataToPersist expects p to be relative, but found it absolute". -/
  | expectedRelative (p : NPath)
  /-- "failed adding a symlink into DataToPersist, src is empty". -/
  | emptySymlinkSrc
  /-- "failed adding a symlink into DataToPersist, dest is empty". -/
  | emptySymlinkDest
deriving DecidableEq, Repr

/-- `_throwForDirectoryCollision`: the first pending file `g` with
`g.path.startsWith(file.path + sep) || file.path.startsWith(g.path + sep)`. -/
def findCollision (files : List PFile) (file : PFile) : Option PFile :=
  files.find? (fun g => dirStartsWith g.path file.path || dirStartsWith file.path g.path)

/-- `findIndex` on path equality followed by `splice(idx, 1)`: drop the first
entry having the given path. -/
def removeFirstByPath : List PFile → NPath → List PFile
  | [], _ => []
  | e :: rest, p => if e.path = p then rest else e :: removeFirstByPath rest p

/-- `DataToPersist.addFile`.  The `!file` null check is ruled out by typing;
`!file.path` is the empty-path check.  When an entry with the same path is
pending, the `override` flag decides between replacing it (splice then push,
after the collision check) and silently keeping the existing entry.  The
collision check runs before every actual insertion. -/
def DataToPersist.addFile (d : DataToPersist) (f : PFile) :
    Except PersistErr DataToPersist :=
  if f.path = NPath.emptyP then .error .emptyFilePath
  else if d.files.any (fun ef => ef.path == f.path) then
    if f.override then
      match findCollision (removeFirstByPath d.files f.path) f with
      | some g => .error (.dirCollision f.path g.path)
      | none => .ok { d with files := removeFirstByPath d.files f.path ++ [f] }
    else .ok d
  else
    match findCollision d.files f with
    | some g => .error (.dirCollision f.path g.path)
    | none => .ok { d with files := d.files ++ [f] }

/-- `addManyFiles`. -/
def DataToPersist.addManyFiles (d : DataToPersist) (fs : List PFile) :
    Except PersistErr DataToPersist :=
  fs.foldlM DataToPersist.addFile d

/-- `removePath`: dedup via `includes` (the source compares object identity;
structural equality is its value-level rendering, as the specification's
"deduplicated by identity" describes). -/
def DataToPersist.removePath (d : DataToPersist) (r : RemovePath) : DataToPersist :=
  if r ∈ d.remove then d else { d with remove := d.remove ++ [r] }

/-- `removeManyPaths`. -/
def DataToPersist.removeManyPaths (d : DataToPersist) (rs : List RemovePath) :
    DataToPersist :=
  rs.foldl DataToPersist.removePath d

/-- `addSymlink`: both endpoints must be nonempty path strings. -/
def DataToPersist.addSymlink (d : DataToPersist) (s : SymlinkP) :
    Except PersistErr DataToPersist :=
  if s.src = NPath.emptyP then .error .emptySymlinkSrc
  else if s.dest = NPath.emptyP then .error .emptySymlinkDest
  else .ok { d with symlinks := d.symlinks ++ [s] }

/-- `addManySymlinks`. -/
def DataToPersist.addManySymlinks (d : DataToPersist) (ss : List SymlinkP) :
    Except PersistErr DataToPersist :=
  ss.foldlM DataToPersist.addSymlink d

/-- `merge(dataToPersist)`: files, then removals, then symlinks, each through
the single-insertion operations. -/
def DataToPersist.merge (d : DataToPersist) (o : Option DataToPersist) :
    Except PersistErr DataToPersist :=
  match o with
  | none => .ok d
  | some od => do
    let d1 ← d.addManyFiles od.files
    let d2 := d1.removeManyPaths od.remove
    d2.addManySymlinks od.symlinks

/-! ## Change-Set engine: commit protocol -/

/-- Filesystem effects emitted during a commit, in execution order.  Within a
phase the source dispatches tasks concurrently and awaits the whole batch
(`Promise.all`); the next phase starts only after the previous `await`
completes, so a commit is a trace of one remove segment, then one write
segment, then one symlink segment. -/
inductive FSEvent where
  /-- `removeFilesAndEmptyDirsRecursively` over the paths whose removal
  requests carry `removeItsDirIfEmpty`, one batched pruning pass. -/
  | removeRecursive (ps : List NPath)
  /-- `removePath.persistToFS()` / `capsule.removePath(p)`. -/
  | remove (p : NPath)
  /-- `file.write()` / `capsule.outputFile(p, contents)`. -/
  | write (p : NPath) (contents : String)
  /-- `symlink.write()` / `capsule.symlink(src, dest)`. -/
  | symlink (src dest : NPath)
deriving DecidableEq, Repr

/-- Phase of an effect. -/
inductive EvKind where
  | rem
  | wr
  | sym
deriving DecidableEq, Repr

/-- The phase an effect belongs to. -/
def FSEvent.kind : FSEvent → EvKind
  | .removeRecursive _ => .rem
  | .remove _ => .rem
  | .write _ _ => .wr
  | .symlink _ _ => .sym

/-- Whether an effect removes the given path. -/
def FSEvent.removesPath (ev : FSEvent) (p : NPath) : Bool :=
  match ev with
  | .removeRecursive ps => ps.contains p
  | .remove q => q == p
  | _ => false

/-- The first non-absolute path of a list, as a validation error. -/
def validateAbsList (l : List NPath) : Option PersistErr :=
  match l.find? (fun p => !p.isAbsolute) with
  | some p => some (.expectedAbsolute p)
  | none => none

/-- `_validate`: every pending path must be absolute; files are checked
first, then removals, then both endpoints of every symlink. -/
def DataToPersist.validateAll (d : DataToPersist) : Option PersistErr :=
  (validateAbsList (d.files.map PFile.path)) <|>
    (validateAbsList (d.remove.map RemovePath.path)) <|>
      validateAbsList (d.symlinks.flatMap (fun s => [s.src, s.dest]))

/-- `_deletePathsFromFS`: the requests flagged `removeItsDirIfEmpty` go
through one recursive pruning pass, the rest are plain removals. -/
def DataToPersist.deleteEvents (d : DataToPersist) : List FSEvent :=
  (if (d.remove.filter (fun r => r.removeItsDirIfEmpty)).isEmpty then []
   else [.removeRecursive ((d.remove.filter (fun r => r.removeItsDirIfEmpty)).map RemovePath.path)]) ++
    (d.remove.filter (fun r => !r.removeItsDirIfEmpty)).map (fun r => .remove r.path)

/-- `_persistFilesToFS`. -/
def DataToPersist.writeEvents (d : DataToPersist) : List FSEvent :=
  d.files.map (fun f => .write f.path f.contents)

/-- `_persistSymlinksToFS`. -/
def DataToPersist.symlinkEvents (d : DataToPersist) : List FSEvent :=
  d.symlinks.map (fun s => .symlink s.src s.dest)

/-- `persistAllToFS`: log (effect-free), validate, then the remove phase,
the write phase and the symlink phase, each awaited before the next. -/
def DataToPersist.persistAllToFS (d : DataToPersist) :
    Except PersistErr (List FSEvent) :=
  match d.validateAll with
  | some e => .error e
  | none => .ok (d.deleteEvents ++ (d.writeEvents ++ d.symlinkEvents))

/-- `persistAllToCapsule`: log, then the remove phase (plain `removePath`
per request, no recursive pruning), the write phase and the symlink phase,
each awaited before the next.  No validation is performed. -/
def DataToPersist.persistAllToCapsule (d : DataToPersist) : List FSEvent :=
  d.remove.map (fun r => .remove r.path) ++ (d.writeEvents ++ d.symlinkEvents)

/-! ## Change-Set engine: rebasing (`addBasePath`) -/

/-- The file pass of `addBasePath`: for each pending file in order, assert
its base is relative, then rebase it (`updatePaths` with the joined base).
On the first absolute base the forEach throws: the already-processed prefix
keeps its rebased form, the failing entry and the rest stay untouched. -/
def addBasePathFiles : List PFile → NPath → Option PersistErr × List PFile
  | [], _ => (none, [])
  | f :: rest, base =>
    if f.base.isAbsolute then (some (.expectedRelative f.base), f :: rest)
    else
      match addBasePathFiles rest base with
      | (e, rest2) => (e, { f with base := base.joinP f.base } :: rest2)

/-- The symlink pass of `addBasePath`: assert src, assert dest, then join
both onto the base. -/
def addBasePathSymlinks : List SymlinkP → NPath → Option PersistErr × List SymlinkP
  | [], _ => (none, [])
  | s :: rest, base =>
    if s.src.isAbsolute then (some (.expectedRelative s.src), s :: rest)
    else if s.dest.isAbsolute then (some (.expectedRelative s.dest), s :: rest)
    else
      match addBasePathSymlinks rest base with
      | (e, rest2) => (e, ⟨base.joinP s.src, base.joinP s.dest⟩ :: rest2)

/-- The removal pass of `addBasePath`. -/
def addBasePathRemoves : List RemovePath → NPath → Option PersistErr × List RemovePath
  | [], _ => (none, [])
  | r :: rest, base =>
    if r.path.isAbsolute then (some (.expectedRelative r.path), r :: rest)
    else
      match addBasePathRemoves rest base with
      | (e, rest2) => (e, { r with path := base.joinP r.path } :: rest2)

/-- `addBasePath`, with the state left behind on failure: files are
processed first, then symlinks, then removals; a throw in one pass leaves
the earlier passes fully rebased and the later passes untouched. -/
def DataToPersist.addBasePathRes (d : DataToPersist) (base : NPath) :
    Option PersistErr × DataToPersist :=
  match addBasePathFiles d.files base with
  | (some e, files2) => (some e, { d with files := files2 })
  | (none, files2) =>
    match addBasePathSymlinks d.symlinks base with
    | (some e, sl2) => (some e, { d with files := files2, symlinks := sl2 })
    | (none, sl2) =>
      match addBasePathRemoves d.remove base with
      | (e, rm2) => (e, { files := files2, symlinks := sl2, remove := rm2 })

/-- `addBasePath` as a fallible operation (the thrown error, or the fully
rebased Change-Set). -/
def DataToPersist.addBasePath (d : DataToPersist) (base : NPath) :
    Except PersistErr DataToPersist :=
  match d.addBasePathRes base with
  | (some e, _) => .error e
  | (none, d2) => .ok d2

/-! ## Change-Set engine: collision invariant lemmas -/

/-- No pending write names a directory strictly containing another pending
write: the invariant the insertion-time collision check maintains. -/
def DInv (d : DataToPersist) : Prop :=
  ∀ p ∈ d.files, ∀ q ∈ d.files, strictAncB p.path q.path = false

/-- States reachable from the empty Change-Set through the successful
mutating operations. -/
inductive ReachableW : DataToPersist → Prop where
  | empty : ReachableW DataToPersist.emptyD
  | addF {d f d2} : ReachableW d → d.addFile f = .ok d2 → ReachableW d2
  | remP {d r} : ReachableW d → ReachableW (d.removePath r)
  | addS {d s d2} : ReachableW d → d.addSymlink s = .ok d2 → ReachableW d2
  | mergeW {d o d2} : ReachableW d → d.merge o = .ok d2 → ReachableW d2

theorem strictAncB_irrefl (a : NPath) : strictAncB a a = false := by
  simp [strictAncB]

theorem dirStartsWith_of_strictAncB {a b : NPath} (h : strictAncB a b = true) :
    dirStartsWith b a = true := by
  unfold strictAncB at h
  simp only [Bool.and_eq_true, Bool.not_eq_true'] at h
  obtain ⟨⟨⟨h1, h2⟩, h3⟩, h4⟩ := h
  unfold dirStartsWith
  rw [if_neg (by simp [h1])]
  simp [h2, h3, h4]

theorem dirStartsWith_cases {p q : NPath} (h : dirStartsWith p q = true) :
    (q.segs = [] ∧ q.abs = false ∧ p.abs = true) ∨ strictAncB q p = true := by
  unfold dirStartsWith at h
  by_cases hq : q.segs.isEmpty = true
  · rw [if_pos hq] at h
    simp only [Bool.and_eq_true, Bool.not_eq_true'] at h
    exact Or.inl ⟨List.isEmpty_iff.mp hq, h.1, h.2⟩
  · rw [if_neg hq] at h
    simp only [Bool.and_eq_true, Bool.not_eq_true'] at h
    obtain ⟨⟨h1, h2⟩, h3⟩ := h
    right
    unfold strictAncB
    simp [hq, h1, h2, h3]

theorem exbind_ok {α β ε : Type _} (a : α) (k : α → Except ε β) :
    (Except.ok a >>= k) = k a := rfl

theorem exbind_error {α β ε : Type _} (e : ε) (k : α → Except ε β) :
    ((Except.error e : Except ε α) >>= k) = Except.error e := rfl

theorem mem_removeFirstByPath {x : PFile} :
    ∀ {l : List PFile} {p : NPath}, x ∈ removeFirstByPath l p → x ∈ l := by
  intro l
  induction l with
  | nil => intro p h; simp [removeFirstByPath] at h
  | cons e rest ih =>
    intro p h
    unfold removeFirstByPath at h
    by_cases he : e.path = p
    · rw [if_pos he] at h; exact List.mem_cons_of_mem _ h
    · rw [if_neg he] at h
      rcases List.mem_cons.mp h with h1 | h2
      · exact h1 ▸ List.mem_cons_self _ _
      · exact List.mem_cons_of_mem _ (ih h2)

theorem findCollision_eq_none_iff {l : List PFile} {f : PFile} :
    findCollision l f = none ↔
      ∀ g ∈ l, dirStartsWith g.path f.path = false ∧ dirStartsWith f.path g.path = false := by
  unfold findCollision
  rw [List.find?_eq_none]
  constructor
  · intro h g hg
    have := h g hg
    simp only [Bool.or_eq_true, not_or, Bool.not_eq_true] at this
    exact this
  · intro h g hg
    simp only [Bool.or_eq_true, not_or, Bool.not_eq_true]
    exact h g hg

theorem findCollision_isSome {l : List PFile} {f g : PFile} (hg : g ∈ l)
    (hp : dirStartsWith g.path f.path = true ∨ dirStartsWith f.path g.path = true) :
    ∃ q, findCollision l f = some q := by
  have : (findCollision l f).isSome := by
    unfold findCollision
    rw [List.find?_isSome]
    exact ⟨g, hg, by rcases hp with h | h <;> simp [h]⟩
  exact Option.isSome_iff_exists.mp this

/-- A pending file set with the invariant contains no empty-path entry
related to another entry, so a collision-search miss really means no
ancestor relation (helper for the invariant-preservation step). -/
theorem dinv_extend {l : List PFile} {f : PFile}
    (hsub : ∀ p ∈ l, ∀ q ∈ l, strictAncB p.path q.path = false)
    (hnone : findCollision l f = none) :
    ∀ p ∈ l ++ [f], ∀ q ∈ l ++ [f], strictAncB p.path q.path = false := by
  have hall := findCollision_eq_none_iff.mp hnone
  intro p hp q hq
  rcases List.mem_append.mp hp with hp1 | hp2 <;>
    rcases List.mem_append.mp hq with hq1 | hq2
  · exact hsub p hp1 q hq1
  · -- q = f: if p were an ancestor of f, the search would have hit p
    have hq' : q = f := by simpa using hq2
    subst hq'
    by_contra hcon
    have : strictAncB p.path q.path = true := by
      cases hx : strictAncB p.path q.path
      · exact absurd hx hcon
      · rfl
    exact absurd (dirStartsWith_of_strictAncB this) (by simp [(hall p hp1).2])
  · have hp' : p = f := by simpa using hp2
    subst hp'
    by_contra hcon
    have : strictAncB p.path q.path = true := by
      cases hx : strictAncB p.path q.path
      · exact absurd hx hcon
      · rfl
    exact absurd (dirStartsWith_of_strictAncB this) (by simp [(hall q hq1).1])
  · have hp' : p = f := by simpa using hp2
    have hq' : q = f := by simpa using hq2
    subst hp'; subst hq'
    exact strictAncB_irrefl _

theorem addFile_ok_inv {d : DataToPersist} {f : PFile} {d2 : DataToPersist}
    (hinv : DInv d) (h : d.addFile f = .ok d2) : DInv d2 := by
  unfold DataToPersist.addFile at h
  by_cases hne : f.path = NPath.emptyP
  · rw [if_pos hne] at h; cases h
  · rw [if_neg hne] at h
    by_cases hany : d.files.any (fun ef => ef.path == f.path) = true
    · rw [if_pos hany] at h
      by_cases hov : f.override = true
      · rw [if_pos hov] at h
        cases hfc : findCollision (removeFirstByPath d.files f.path) f with
        | some g => rw [hfc] at h; cases h
        | none =>
          rw [hfc] at h
          cases h
          intro p hp q hq
          exact dinv_extend
            (fun p hp q hq => hinv p (mem_removeFirstByPath hp) q (mem_removeFirstByPath hq))
            hfc p hp q hq
      · rw [if_neg hov] at h
        cases h
        exact hinv
    · rw [if_neg hany] at h
      cases hfc : findCollision d.files f with
      | some g => rw [hfc] at h; cases h
      | none =>
        rw [hfc] at h
        cases h
        intro p hp q hq
        exact dinv_extend hinv hfc p hp q hq

theorem addManyFiles_ok_inv :
    ∀ (fs : List PFile) (d d2 : DataToPersist),
      DInv d → d.addManyFiles fs = .ok d2 → DInv d2 := by
  intro fs
  induction fs with
  | nil =>
    intro d d2 h1 h2
    unfold DataToPersist.addManyFiles at h2
    rw [List.foldlM_nil] at h2
    cases h2
    exact h1
  | cons f rest ih =>
    intro d d2 h1 h2
    unfold DataToPersist.addManyFiles at h2 ih
    rw [List.foldlM_cons] at h2
    cases haf : d.addFile f with
    | error e => rw [haf, exbind_error] at h2; cases h2
    | ok d1 => rw [haf, exbind_ok] at h2; exact ih d1 d2 (addFile_ok_inv h1 haf) h2

theorem files_removePath (d : DataToPersist) (r : RemovePath) :
    (d.removePath r).files = d.files := by
  unfold DataToPersist.removePath
  by_cases h : r ∈ d.remove
  · rw [if_pos h]
  · rw [if_neg h]

theorem files_removeManyPaths :
    ∀ (rs : List RemovePath) (d : DataToPersist),
      (d.removeManyPaths rs).files = d.files := by
  intro rs
  induction rs with
  | nil => intro d; rfl
  | cons r rest ih =>
    intro d
    unfold DataToPersist.removeManyPaths at ih ⊢
    rw [List.foldl_cons, ih, files_removePath]

theorem files_addSymlink {d : DataToPersist} {s : SymlinkP} {d2 : DataToPersist}
    (h : d.addSymlink s = .ok d2) : d2.files = d.files := by
  unfold DataToPersist.addSymlink at h
  by_cases h1 : s.src = NPath.emptyP
  · rw [if_pos h1] at h; cases h
  · rw [if_neg h1] at h
    by_cases h2 : s.dest = NPath.emptyP
    · rw [if_pos h2] at h; cases h
    · rw [if_neg h2] at h; cases h; rfl

theorem files_addManySymlinks :
    ∀ (ss : List SymlinkP) (d d2 : DataToPersist),
      d.addManySymlinks ss = .ok d2 → d2.files = d.files := by
  intro ss
  induction ss with
  | nil =>
    intro d d2 h
    unfold DataToPersist.addManySymlinks at h
    rw [List.foldlM_nil] at h
    cases h
    rfl
  | cons s rest ih =>
    intro d d2 h
    unfold DataToPersist.addManySymlinks at h ih
    rw [List.foldlM_cons] at h
    cases has : d.addSymlink s with
    | error e => rw [has, exbind_error] at h; cases h
    | ok d1 => rw [has, exbind_ok] at h; rw [ih d1 d2 h, files_addSymlink has]

theorem merge_ok_inv {d : DataToPersist} {o : Option DataToPersist} {d2 : DataToPersist}
    (hinv : DInv d) (h : d.merge o = .ok d2) : DInv d2 := by
  unfold DataToPersist.merge at h
  cases o with
  | none => cases h; exact hinv
  | some od =>
    simp only [bind, Except.bind] at h
    cases hmf : d.addManyFiles od.files with
    | error e => rw [hmf] at h; cases h
    | ok d1 =>
      rw [hmf] at h
      have hinv1 : DInv d1 := addManyFiles_ok_inv od.files d d1 hinv hmf
      have hfiles : d2.files = (d1.removeManyPaths od.remove).files :=
        files_addManySymlinks od.symlinks _ d2 h
      rw [files_removeManyPaths] at hfiles
      intro p hp q hq
      rw [hfiles] at hp hq
      exact hinv1 p hp q hq

theorem dinv_empty : DInv DataToPersist.emptyD := by
  intro p hp
  simp [DataToPersist.emptyD] at hp

theorem reachable_dinv {d : DataToPersist} (h : ReachableW d) : DInv d := by
  induction h with
  | empty => exact dinv_empty
  | addF _ hstep ih => exact addFile_ok_inv ih hstep
  | remP _ ih =>
    intro p hp q hq
    rw [files_removePath] at hp hq
    exact ih p hp q hq
  | addS hstep _ ih =>
    intro p hp q hq
    rename_i hadd
    rw [files_addSymlink hadd] at hp hq
    exact ih p hp q hq
  | mergeW _ hstep ih => exact merge_ok_inv ih hstep

theorem addFile_collision_error {d : DataToPersist} {f : PFile}
    (hinv : DInv d)
    (hanc : ∃ g ∈ d.files, strictAncB f.path g.path = true ∨ strictAncB g.path f.path = true) :
    ∃ q, d.addFile f = .error (.dirCollision f.path q) := by
  obtain ⟨g, hg, hrel⟩ := hanc
  -- the inserted path has segments, so the empty-path guard passes
  have hfsegs : f.path.segs ≠ [] := by
    rcases hrel with h | h
    · intro hc
      unfold strictAncB at h
      simp [hc] at h
    · intro hc
      unfold strictAncB at h
      simp only [Bool.and_eq_true, Bool.not_eq_true'] at h
      obtain ⟨⟨⟨h1, h2⟩, h3⟩, h4⟩ := h
      rw [List.isPrefixOf_iff_prefix] at h3
      rw [hc] at h3
      have := List.prefix_nil.mp h3
      simp [this] at h1
  have hne : ¬ f.path = NPath.emptyP := by
    intro hc
    exact hfsegs (by rw [hc]; rfl)
  -- no pending entry shares the inserted path, else the invariant would
  -- already relate it to the ancestor witness
  have hany : d.files.any (fun ef => ef.path == f.path) = false := by
    rw [List.any_eq_false]
    intro ef hef
    simp only [beq_iff_eq, Bool.not_eq_true]
    intro hc
    rcases hrel with h | h
    · rw [← hc] at h
      exact absurd h (by simp [hinv ef hef g hg])
    · rw [← hc] at h
      exact absurd h (by simp [hinv g hg ef hef])
  have hpred : dirStartsWith g.path f.path = true ∨ dirStartsWith f.path g.path = true := by
    rcases hrel with h | h
    · exact Or.inl (dirStartsWith_of_strictAncB h)
    · exact Or.inr (dirStartsWith_of_strictAncB h)
  obtain ⟨q, hq⟩ := findCollision_isSome hg hpred
  refine ⟨q.path, ?_⟩
  unfold DataToPersist.addFile
  rw [if_neg hne, if_neg (by simp [hany]), hq]

/-- C1: inserting a pending write whose path is a strict directory-ancestor
or strict directory-descendant of an already-pending write path fails at
insertion time with the directory-collision error, in either insertion
order; and after any sequence of successful addFile / removePath /
addSymlink / merge operations starting from the empty Change-Set, the
pending write set never contains two entries in an ancestor/descendant
relationship. -/
theorem changeSet_collision_invariant :
    (∀ (d : DataToPersist) (f : PFile), DInv d →
        (∃ g ∈ d.files,
          strictAncB f.path g.path = true ∨ strictAncB g.path f.path = true) →
        ∃ q, d.addFile f = .error (.dirCollision f.path q)) ∧
    (∀ d, ReachableW d → DInv d) :=
  ⟨fun _ _ hinv hanc => addFile_collision_error hinv hanc,
   fun _ h => reachable_dinv h⟩

/-- The pending write "bar" (as a vinyl file with base "bar"). -/
def fBar : PFile := ⟨⟨false, ["bar"]⟩, [], "", false⟩

/-- The pending write "bar/foo". -/
def fBarFoo : PFile := ⟨⟨false, ["bar", "foo"]⟩, [], "", false⟩

theorem changeSet_collision_invariant_witness :
    (∃ q, DataToPersist.addFile ⟨[fBar], [], []⟩ fBarFoo =
      .error (.dirCollision fBarFoo.path q)) ∧
    (∃ q, DataToPersist.addFile ⟨[fBarFoo], [], []⟩ fBar =
      .error (.dirCollision fBar.path q)) ∧
    DInv DataToPersist.emptyD := by
  refine ⟨?_, ?_, changeSet_collision_invariant.2 _ ReachableW.empty⟩
  · exact changeSet_collision_invariant.1 ⟨[fBar], [], []⟩ fBarFoo
      (by intro p hp q hq; simp at hp hq; rw [hp, hq]; decide)
      ⟨fBar, by simp, Or.inr (by decide)⟩
  · exact changeSet_collision_invariant.1 ⟨[fBarFoo], [], []⟩ fBar
      (by intro p hp q hq; simp at hp hq; rw [hp, hq]; decide)
      ⟨fBarFoo, by simp, Or.inl (by decide)⟩

theorem eq_emptyP_of {p : NPath} (h1 : p.abs = false) (h2 : p.segs = []) :
    p = NPath.emptyP := by
  cases p
  simp only at h1 h2
  rw [NPath.emptyP, h1, h2]

theorem removeFirstByPath_eq_filter :
    ∀ (l : List PFile) (p : NPath), (l.map PFile.path).Nodup →
      removeFirstByPath l p = l.filter (fun g => !(g.path == p)) := by
  intro l
  induction l with
  | nil => intro p _; rfl
  | cons e rest ih =>
    intro p hnd
    rw [List.map_cons, List.nodup_cons] at hnd
    unfold removeFirstByPath
    by_cases he : e.path = p
    · rw [if_pos he, List.filter_cons_of_neg (by simp [he])]
      symm
      rw [List.filter_eq_self]
      intro g hg
      simp only [Bool.not_eq_true', beq_eq_false_iff_ne, ne_eq]
      intro hc
      exact hnd.1 (by rw [he, ← hc]; exact List.mem_map_of_mem PFile.path hg)
    · rw [if_neg he, List.filter_cons_of_pos (by simp [he]), ih p hnd.2]

/-- C2: with a pending write already present for path P, a second add for P
with `overrideExisting = false` leaves the Change-Set (and so the first
entry's contents) unchanged and drops the new entry; with
`overrideExisting = true` the pending entry for P is replaced by the new
one.  The side conditions are the shape every reachable Change-Set has:
pairwise-distinct nonempty pending paths with no ancestor pair. -/
theorem addFile_override_semantics (d : DataToPersist) (f e : PFile)
    (hmem : e ∈ d.files) (hpath : e.path = f.path)
    (hne : f.path ≠ NPath.emptyP)
    (hnodup : (d.files.map PFile.path).Nodup)
    (hnoempty : ∀ g ∈ d.files, g.path ≠ NPath.emptyP)
    (hinv : DInv d) :
    (f.override = false → d.addFile f = .ok d) ∧
    (f.override = true →
      d.addFile f =
        .ok { d with files := d.files.filter (fun g => !(g.path == f.path)) ++ [f] }) := by
  have hany : d.files.any (fun ef => ef.path == f.path) = true :=
    List.any_eq_true.mpr ⟨e, hmem, by simp [hpath]⟩
  constructor
  · intro hov
    unfold DataToPersist.addFile
    rw [if_neg hne, if_pos (by simp [hany]), if_neg (by simp [hov])]
  · intro hov
    have hnone : findCollision (removeFirstByPath d.files f.path) f = none := by
      rw [findCollision_eq_none_iff]
      intro g hg0
      have hg : g ∈ d.files := mem_removeFirstByPath hg0
      constructor
      · cases hx : dirStartsWith g.path f.path
        · rfl
        · exfalso
          rcases dirStartsWith_cases hx with ⟨h1, h2, _⟩ | h
          · exact hne (eq_emptyP_of h2 h1)
          · rw [← hpath] at h
            exact absurd h (by simp [hinv e hmem g hg])
      · cases hx : dirStartsWith f.path g.path
        · rfl
        · exfalso
          rcases dirStartsWith_cases hx with ⟨h1, h2, _⟩ | h
          · exact hnoempty g hg (eq_emptyP_of h2 h1)
          · rw [← hpath] at h
            exact absurd h (by simp [hinv g hg e hmem])
    unfold DataToPersist.addFile
    rw [if_neg hne, if_pos (by simp [hany]), if_pos (by simp [hov]), hnone,
      removeFirstByPath_eq_filter d.files f.path hnodup]

/-- An already-pending write for path "p" with contents "old". -/
def fpOld : PFile := ⟨⟨false, ["p"]⟩, [], "old", false⟩

/-- A later write for the same path "p", not overriding. -/
def fpKeep : PFile := ⟨⟨false, ["p"]⟩, [], "new", false⟩

/-- A later write for the same path "p", overriding. -/
def fpOver : PFile := ⟨⟨false, ["p"]⟩, [], "new", true⟩

theorem addFile_override_semantics_witness :
    DataToPersist.addFile ⟨[fpOld], [], []⟩ fpKeep = .ok ⟨[fpOld], [], []⟩ ∧
    DataToPersist.addFile ⟨[fpOld], [], []⟩ fpOver =
      .ok { files := [fpOld].filter (fun g => !(g.path == fpOver.path)) ++ [fpOver],
            symlinks := [], remove := [] } := by
  constructor
  · exact (addFile_override_semantics ⟨[fpOld], [], []⟩ fpKeep fpOld (by decide)
      (by decide) (by decide) (by decide) (by decide)
      (by intro p hp q hq; simp at hp hq; rw [hp, hq]; decide)).1 rfl
  · exact (addFile_override_semantics ⟨[fpOld], [], []⟩ fpOver fpOld (by decide)
      (by decide) (by decide) (by decide) (by decide)
      (by intro p hp q hq; simp at hp hq; rw [hp, hq]; decide)).2 rfl

/-! ## C3: strict phase order of commit -/

theorem evpos_lt {k : EvKind} :
    ∀ (A rest : List FSEvent), (∀ ev ∈ rest, ev.kind ≠ k) →
      ∀ (i : Nat) (hi : i < (A ++ rest).length),
        ((A ++ rest).get ⟨i, hi⟩).kind = k → i < A.length := by
  intro A
  induction A with
  | nil =>
    intro rest hrest i hi hk
    exact absurd hk (hrest _ (List.get_mem _ _ _))
  | cons a A ih =>
    intro rest hrest i hi hk
    cases i with
    | zero => simp
    | succ j =>
      have hj : j < (A ++ rest).length := Nat.succ_lt_succ_iff.mp hi
      have := ih rest hrest j hj hk
      simpa using Nat.succ_lt_succ this

theorem evpos_ge {k : EvKind} :
    ∀ (A rest : List FSEvent), (∀ ev ∈ A, ev.kind ≠ k) →
      ∀ (i : Nat) (hi : i < (A ++ rest).length),
        ((A ++ rest).get ⟨i, hi⟩).kind = k → A.length ≤ i := by
  intro A
  induction A with
  | nil => intro rest _ i _ _; exact Nat.zero_le i
  | cons a A ih =>
    intro rest hA i hi hk
    cases i with
    | zero => exact absurd hk (hA a (List.mem_cons_self a A))
    | succ j =>
      have hj : j < (A ++ rest).length := Nat.succ_lt_succ_iff.mp hi
      have := ih rest (fun ev hev => hA ev (List.mem_cons_of_mem a hev)) j hj hk
      simpa using Nat.succ_le_succ this

theorem evpos_mid_ge {k : EvKind} :
    ∀ (A B C : List FSEvent),
      (∀ ev ∈ A, ev.kind ≠ k) → (∀ ev ∈ B, ev.kind ≠ k) →
      ∀ (i : Nat) (hi : i < (A ++ (B ++ C)).length),
        ((A ++ (B ++ C)).get ⟨i, hi⟩).kind = k → A.length + B.length ≤ i := by
  intro A
  induction A with
  | nil =>
    intro B C hA hB i hi hk
    simpa using evpos_ge B C hB i hi hk
  | cons a A ih =>
    intro B C hA hB i hi hk
    cases i with
    | zero => exact absurd hk (hA a (List.mem_cons_self a A))
    | succ j =>
      have hj : j < (A ++ (B ++ C)).length := Nat.succ_lt_succ_iff.mp hi
      have := ih B C (fun ev hev => hA ev (List.mem_cons_of_mem a hev)) hB j hj hk
      have h2 : (a :: A).length + B.length = (A.length + B.length) + 1 := by
        simp [Nat.succ_add]
      rw [h2]
      exact Nat.succ_le_succ this

theorem evpos_mid_lt {k : EvKind} :
    ∀ (A B C : List FSEvent), (∀ ev ∈ C, ev.kind ≠ k) →
      ∀ (i : Nat) (hi : i < (A ++ (B ++ C)).length),
        ((A ++ (B ++ C)).get ⟨i, hi⟩).kind = k → i < A.length + B.length := by
  intro A
  induction A with
  | nil =>
    intro B C hC i hi hk
    simpa using evpos_lt B C hC i hi hk
  | cons a A ih =>
    intro B C hC i hi hk
    cases i with
    | zero => simp [Nat.succ_add]
    | succ j =>
      have hj : j < (A ++ (B ++ C)).length := Nat.succ_lt_succ_iff.mp hi
      have := ih B C hC j hj hk
      have h2 : (a :: A).length + B.length = (A.length + B.length) + 1 := by
        simp [Nat.succ_add]
      rw [h2]
      exact Nat.succ_lt_succ this

theorem kind_deleteEvents (d : DataToPersist) :
    ∀ ev ∈ d.deleteEvents, ev.kind = .rem := by
  intro ev hev
  unfold DataToPersist.deleteEvents at hev
  rcases List.mem_append.mp hev with h | h
  · by_cases hc : (d.remove.filter (fun r => r.removeItsDirIfEmpty)).isEmpty = true
    · rw [if_pos hc] at h; simp at h
    · rw [if_neg hc] at h
      simp only [List.mem_singleton] at h
      rw [h]; rfl
  · obtain ⟨r, _, hr⟩ := List.mem_map.mp h
    rw [← hr]; rfl

theorem kind_capsuleRemoves (d : DataToPersist) :
    ∀ ev ∈ d.remove.map (fun r => FSEvent.remove r.path), ev.kind = .rem := by
  intro ev hev
  obtain ⟨r, _, hr⟩ := List.mem_map.mp hev
  rw [← hr]; rfl

theorem kind_writeEvents (d : DataToPersist) :
    ∀ ev ∈ d.writeEvents, ev.kind = .wr := by
  intro ev hev
  obtain ⟨f, _, hf⟩ := List.mem_map.mp hev
  rw [← hf]; rfl

theorem kind_symlinkEvents (d : DataToPersist) :
    ∀ ev ∈ d.symlinkEvents, ev.kind = .sym := by
  intro ev hev
  obtain ⟨s, _, hs⟩ := List.mem_map.mp hev
  rw [← hs]; rfl

theorem kind_rem_of_removesPath {ev : FSEvent} {p : NPath}
    (h : ev.removesPath p = true) : ev.kind = .rem := by
  cases ev <;> simp [FSEvent.removesPath, FSEvent.kind] at h ⊢

theorem removal_event_exists (d : DataToPersist) {p : NPath}
    (hp : p ∈ d.remove.map RemovePath.path) :
    ∃ ev ∈ d.deleteEvents, ev.removesPath p = true := by
  obtain ⟨r, hr, hrp⟩ := List.mem_map.mp hp
  unfold DataToPersist.deleteEvents
  by_cases hflag : r.removeItsDirIfEmpty = true
  · have hmem : r ∈ d.remove.filter (fun r => r.removeItsDirIfEmpty) :=
      List.mem_filter.mpr ⟨hr, hflag⟩
    have hnonempty : ¬ (d.remove.filter (fun r => r.removeItsDirIfEmpty)).isEmpty = true := by
      intro hc
      rw [List.isEmpty_iff] at hc
      rw [hc] at hmem
      simp at hmem
    refine ⟨.removeRecursive ((d.remove.filter (fun r => r.removeItsDirIfEmpty)).map RemovePath.path),
      ?_, ?_⟩
    · rw [if_neg hnonempty]
      exact List.mem_append_left _ (List.mem_singleton.mpr rfl)
    · simp only [FSEvent.removesPath]
      rw [List.contains_iff_exists_mem_beq]
      refine ⟨p, ?_, by simp⟩
      rw [← hrp]
      exact List.mem_map_of_mem RemovePath.path hmem
  · refine ⟨.remove r.path, ?_, by simp [FSEvent.removesPath, hrp]⟩
    refine List.mem_append_right _ ?_
    exact List.mem_map_of_mem _ (List.mem_filter.mpr ⟨hr, by simp [hflag]⟩)

theorem evpos_lt_ne {k : EvKind} :
    ∀ (A rest : List FSEvent), (∀ ev ∈ rest, ev.kind = k) →
      ∀ (i : Nat) (hi : i < (A ++ rest).length),
        ((A ++ rest).get ⟨i, hi⟩).kind ≠ k → i < A.length := by
  intro A
  induction A with
  | nil =>
    intro rest hrest i hi hk
    exact absurd (hrest _ (List.get_mem _ _ _)) hk
  | cons a A ih =>
    intro rest hrest i hi hk
    cases i with
    | zero => simp
    | succ j =>
      have hj : j < (A ++ rest).length := Nat.succ_lt_succ_iff.mp hi
      have := ih rest hrest j hj hk
      simpa using Nat.succ_lt_succ this

theorem evpos_mid_lt_ne {k : EvKind} :
    ∀ (A B C : List FSEvent), (∀ ev ∈ C, ev.kind = k) →
      ∀ (i : Nat) (hi : i < (A ++ (B ++ C)).length),
        ((A ++ (B ++ C)).get ⟨i, hi⟩).kind ≠ k → i < A.length + B.length := by
  intro A
  induction A with
  | nil =>
    intro B C hC i hi hk
    simpa using evpos_lt_ne B C hC i hi hk
  | cons a A ih =>
    intro B C hC i hi hk
    cases i with
    | zero => simp [Nat.succ_add]
    | succ j =>
      have hj : j < (A ++ (B ++ C)).length := Nat.succ_lt_succ_iff.mp hi
      have := ih B C hC j hj hk
      have h2 : (a :: A).length + B.length = (A.length + B.length) + 1 := by
        simp [Nat.succ_add]
      rw [h2]
      exact Nat.succ_lt_succ this

/-- C3: a committed trace runs in strict phase order — no write effect
occurs at a position before any remove effect, and no symlink effect occurs
at a position before any remove or write effect; when a path is both
pending for removal and pending for write, its removal strictly precedes
its write; and the capsule commit follows the same strict phase order. -/
theorem commit_strict_phase_order (d : DataToPersist) (tr : List FSEvent)
    (h : d.persistAllToFS = .ok tr) :
    (∀ (i j : Nat) (hi : i < tr.length) (hj : j < tr.length),
        ((tr.get ⟨i, hi⟩).kind = .rem → (tr.get ⟨j, hj⟩).kind = .wr → i < j) ∧
        ((tr.get ⟨i, hi⟩).kind ≠ .sym → (tr.get ⟨j, hj⟩).kind = .sym → i < j)) ∧
    (∀ p, p ∈ d.remove.map RemovePath.path → p ∈ d.files.map PFile.path →
        ∃ (i j : Nat) (hi : i < tr.length) (hj : j < tr.length),
          (tr.get ⟨i, hi⟩).removesPath p = true ∧
          (∃ c, tr.get ⟨j, hj⟩ = .write p c) ∧ i < j) ∧
    (∀ (i j : Nat) (hi : i < d.persistAllToCapsule.length)
        (hj : j < d.persistAllToCapsule.length),
        ((d.persistAllToCapsule.get ⟨i, hi⟩).kind = .rem →
          (d.persistAllToCapsule.get ⟨j, hj⟩).kind = .wr → i < j) ∧
        ((d.persistAllToCapsule.get ⟨i, hi⟩).kind ≠ .sym →
          (d.persistAllToCapsule.get ⟨j, hj⟩).kind = .sym → i < j)) := by
  have htr : tr = d.deleteEvents ++ (d.writeEvents ++ d.symlinkEvents) := by
    unfold DataToPersist.persistAllToFS at h
    cases hv : d.validateAll with
    | some e => rw [hv] at h; cases h
    | none => rw [hv] at h; cases h; rfl
  have hWSne : ∀ ev ∈ d.writeEvents ++ d.symlinkEvents, ev.kind ≠ EvKind.rem := by
    intro ev hev
    rcases List.mem_append.mp hev with hw | hs
    · rw [kind_writeEvents d ev hw]; simp
    · rw [kind_symlinkEvents d ev hs]; simp
  have hDne : ∀ ev ∈ d.deleteEvents, ev.kind ≠ EvKind.wr := by
    intro ev hev
    rw [kind_deleteEvents d ev hev]; simp
  have hDneS : ∀ ev ∈ d.deleteEvents, ev.kind ≠ EvKind.sym := by
    intro ev hev
    rw [kind_deleteEvents d ev hev]; simp
  have hWneS : ∀ ev ∈ d.writeEvents, ev.kind ≠ EvKind.sym := by
    intro ev hev
    rw [kind_writeEvents d ev hev]; simp
  have hSsym : ∀ ev ∈ d.symlinkEvents, ev.kind = EvKind.sym := kind_symlinkEvents d
  have hposFS : ∀ (i j : Nat) (hi : i < tr.length) (hj : j < tr.length),
      ((tr.get ⟨i, hi⟩).kind = .rem → (tr.get ⟨j, hj⟩).kind = .wr → i < j) ∧
      ((tr.get ⟨i, hi⟩).kind ≠ .sym → (tr.get ⟨j, hj⟩).kind = .sym → i < j) := by
    subst htr
    intro i j hi hj
    constructor
    · intro hik hjk
      have h1 : i < (d.deleteEvents).length := evpos_lt _ _ hWSne i hi hik
      have h2 : (d.deleteEvents).length ≤ j := evpos_ge _ _ hDne j hj hjk
      omega
    · intro hik hjk
      have h1 : i < (d.deleteEvents).length + (d.writeEvents).length :=
        evpos_mid_lt_ne _ _ _ hSsym i hi hik
      have h2 : (d.deleteEvents).length + (d.writeEvents).length ≤ j :=
        evpos_mid_ge _ _ _ hDneS hWneS j hj hjk
      omega
  refine ⟨hposFS, ?_, ?_⟩
  · intro p hpr hpw
    obtain ⟨evR, hevRmem, hevR⟩ := removal_event_exists d hpr
    obtain ⟨f, hf, hfp⟩ := List.mem_map.mp hpw
    have hevWmem : FSEvent.write p f.contents ∈ tr := by
      rw [htr]
      refine List.mem_append_right _ (List.mem_append_left _ ?_)
      unfold DataToPersist.writeEvents
      rw [← hfp]
      exact List.mem_map_of_mem _ hf
    have hevRmem' : evR ∈ tr := by
      rw [htr]
      exact List.mem_append_left _ hevRmem
    obtain ⟨⟨i, hi⟩, hgeti⟩ := List.mem_iff_get.mp hevRmem'
    obtain ⟨⟨j, hj⟩, hgetj⟩ := List.mem_iff_get.mp hevWmem
    refine ⟨i, j, hi, hj, by rw [hgeti]; exact hevR, ⟨f.contents, hgetj⟩, ?_⟩
    have hik : (tr.get ⟨i, hi⟩).kind = .rem := by
      rw [hgeti]; exact kind_rem_of_removesPath hevR
    have hjk : (tr.get ⟨j, hj⟩).kind = .wr := by
      rw [hgetj]; rfl
    exact (hposFS i j hi hj).1 hik hjk
  · intro i j hi hj
    have hCne : ∀ ev ∈ d.writeEvents ++ d.symlinkEvents, ev.kind ≠ EvKind.rem := hWSne
    have hRne : ∀ ev ∈ d.remove.map (fun r => FSEvent.remove r.path),
        ev.kind ≠ EvKind.wr := by
      intro ev hev
      rw [kind_capsuleRemoves d ev hev]; simp
    have hRneS : ∀ ev ∈ d.remove.map (fun r => FSEvent.remove r.path),
        ev.kind ≠ EvKind.sym := by
      intro ev hev
      rw [kind_capsuleRemoves d ev hev]; simp
    constructor
    · intro hik hjk
      have h1 : i < (d.remove.map (fun r => FSEvent.remove r.path)).length :=
        evpos_lt _ _ hCne i hi hik
      have h2 : (d.remove.map (fun r => FSEvent.remove r.path)).length ≤ j :=
        evpos_ge _ _ hRne j hj hjk
      omega
    · intro hik hjk
      have h1 : i < (d.remove.map (fun r => FSEvent.remove r.path)).length +
          (d.writeEvents).length :=
        evpos_mid_lt_ne _ _ _ hSsym i hi hik
      have h2 : (d.remove.map (fun r => FSEvent.remove r.path)).length +
          (d.writeEvents).length ≤ j :=
        evpos_mid_ge _ _ _ hRneS hWneS j hj hjk
      omega

/-- A Change-Set whose remove and write sets share the absolute path "/a". -/
def dtpShared : DataToPersist :=
  ⟨[⟨⟨true, ["a"]⟩, [], "c", false⟩], [⟨⟨true, ["s"]⟩, ⟨true, ["t"]⟩⟩],
   [⟨⟨true, ["a"]⟩, false⟩]⟩

theorem commit_strict_phase_order_witness :
    ∃ (i j : Nat)
      (hi : i < ([.remove ⟨true, ["a"]⟩, .write ⟨true, ["a"]⟩ "c",
                  .symlink ⟨true, ["s"]⟩ ⟨true, ["t"]⟩] : List FSEvent).length)
      (hj : j < ([.remove ⟨true, ["a"]⟩, .write ⟨true, ["a"]⟩ "c",
                  .symlink ⟨true, ["s"]⟩ ⟨true, ["t"]⟩] : List FSEvent).length),
      (([.remove ⟨true, ["a"]⟩, .write ⟨true, ["a"]⟩ "c",
         .symlink ⟨true, ["s"]⟩ ⟨true, ["t"]⟩] : List FSEvent).get ⟨i, hi⟩).removesPath
          ⟨true, ["a"]⟩ = true ∧
      (∃ c, ([.remove ⟨true, ["a"]⟩, .write ⟨true, ["a"]⟩ "c",
              .symlink ⟨true, ["s"]⟩ ⟨true, ["t"]⟩] : List FSEvent).get ⟨j, hj⟩ =
          .write ⟨true, ["a"]⟩ c) ∧ i < j :=
  (commit_strict_phase_order dtpShared
      [.remove ⟨true, ["a"]⟩, .write ⟨true, ["a"]⟩ "c",
       .symlink ⟨true, ["s"]⟩ ⟨true, ["t"]⟩] rfl).2.1
    ⟨true, ["a"]⟩ (by decide) (by decide)

/-! ## C4: commit-time validation -/

/-- All pending paths of a Change-Set: write paths, removal paths and both
symlink endpoints. -/
def DataToPersist.allPendingPaths (d : DataToPersist) : List NPath :=
  d.files.map PFile.path ++ d.remove.map RemovePath.path ++
    d.symlinks.flatMap (fun s => [s.src, s.dest])

theorem validateAbsList_isSome {l : List NPath} {p : NPath} (hp : p ∈ l)
    (h : p.isAbsolute = false) : ∃ e, validateAbsList l = some e := by
  have hs : (l.find? (fun p => !p.isAbsolute)).isSome := by
    rw [List.find?_isSome]
    exact ⟨p, hp, by simp [h]⟩
  obtain ⟨q, hq⟩ := Option.isSome_iff_exists.mp hs
  exact ⟨.expectedAbsolute q, by unfold validateAbsList; rw [hq]⟩

theorem validateAll_isSome {d : DataToPersist} {p : NPath}
    (hp : p ∈ d.allPendingPaths) (h : p.isAbsolute = false) :
    ∃ e, d.validateAll = some e := by
  unfold DataToPersist.allPendingPaths at hp
  unfold DataToPersist.validateAll
  rcases List.mem_append.mp hp with h1 | hsym
  · rcases List.mem_append.mp h1 with hf | hr
    · obtain ⟨e, he⟩ := validateAbsList_isSome hf h
      exact ⟨e, by simp [he]⟩
    · cases hv : validateAbsList (d.files.map PFile.path) with
      | some e => exact ⟨e, rfl⟩
      | none =>
        obtain ⟨e, he⟩ := validateAbsList_isSome hr h
        exact ⟨e, by simp [he]⟩
  · cases hv : validateAbsList (d.files.map PFile.path) with
    | some e => exact ⟨e, rfl⟩
    | none =>
      cases hv2 : validateAbsList (d.remove.map RemovePath.path) with
      | some e => exact ⟨e, rfl⟩
      | none =>
        obtain ⟨e, he⟩ := validateAbsList_isSome hsym h
        exact ⟨e, by simp [he]⟩

/-- A Change-Set holding one pending write with the relative path "foo". -/
def dtpRelFoo : DataToPersist := ⟨[⟨⟨false, ["foo"]⟩, [], "c", false⟩], [], []⟩

/-- C4 counterexample: the capsule commit performs no absolute-path
validation.  This Change-Set contains a non-absolute pending path, yet its
capsule commit emits a write effect and reports no error, while the
filesystem commit aborts with the expected validation error before any
effect. -/
theorem capsule_commit_skips_validation :
    (⟨false, ["foo"]⟩ : NPath) ∈ dtpRelFoo.allPendingPaths ∧
    NPath.isAbsolute ⟨false, ["foo"]⟩ = false ∧
    dtpRelFoo.persistAllToCapsule = [.write ⟨false, ["foo"]⟩ "c"] ∧
    dtpRelFoo.persistAllToFS = .error (.expectedAbsolute ⟨false, ["foo"]⟩) :=
  ⟨by decide, rfl, rfl, rfl⟩

/-- C4 (amended): the local-filesystem commit validates that every pending
path is absolute and aborts with an error — emitting no effect — when one
is not; the capsule commit runs the identical remove/write/symlink phase
order but performs no such validation, proceeding even with non-absolute
paths. -/
theorem fs_commit_validates_paths (d : DataToPersist) (p : NPath)
    (hp : p ∈ d.allPendingPaths) (habs : p.isAbsolute = false) :
    (∃ e, d.persistAllToFS = .error e) ∧
    d.persistAllToCapsule =
      d.remove.map (fun r => .remove r.path) ++ (d.writeEvents ++ d.symlinkEvents) := by
  obtain ⟨e, he⟩ := validateAll_isSome hp habs
  refine ⟨⟨e, ?_⟩, rfl⟩
  unfold DataToPersist.persistAllToFS
  rw [he]

theorem fs_commit_validates_paths_witness :
    (∃ e, dtpRelFoo.persistAllToFS = .error e) ∧
    dtpRelFoo.persistAllToCapsule =
      dtpRelFoo.remove.map (fun r => .remove r.path) ++
        (dtpRelFoo.writeEvents ++ dtpRelFoo.symlinkEvents) :=
  fs_commit_validates_paths dtpRelFoo ⟨false, ["foo"]⟩ (by decide) rfl

/-! ## C8, C10: rebasing -/

/-- Every pending entry of the Change-Set carries relative paths (for files,
the `base` field the rebase pass inspects). -/
def AllRelD (d : DataToPersist) : Prop :=
  (∀ f ∈ d.files, f.base.isAbsolute = false) ∧
  (∀ s ∈ d.symlinks, s.src.isAbsolute = false ∧ s.dest.isAbsolute = false) ∧
  (∀ r ∈ d.remove, r.path.isAbsolute = false)

/-- Some pending entry carries an absolute path at the position the rebase
pass asserts. -/
def HasAbsD (d : DataToPersist) : Prop :=
  (∃ f ∈ d.files, f.base.isAbsolute = true) ∨
  (∃ s ∈ d.symlinks, s.src.isAbsolute = true ∨ s.dest.isAbsolute = true) ∨
  (∃ r ∈ d.remove, r.path.isAbsolute = true)

/-- The fully rebased Change-Set: every pending path joined onto the base. -/
def DataToPersist.joinAll (d : DataToPersist) (base : NPath) : DataToPersist :=
  ⟨d.files.map (fun f => { f with base := base.joinP f.base }),
   d.symlinks.map (fun s => ⟨base.joinP s.src, base.joinP s.dest⟩),
   d.remove.map (fun r => { r with path := base.joinP r.path })⟩

theorem addBasePathFiles_allRel :
    ∀ (l : List PFile) (base : NPath), (∀ f ∈ l, f.base.isAbsolute = false) →
      addBasePathFiles l base =
        (none, l.map (fun f => { f with base := base.joinP f.base })) := by
  intro l
  induction l with
  | nil => intro base _; rfl
  | cons f rest ih =>
    intro base h
    unfold addBasePathFiles
    rw [if_neg (by simp [h f (List.mem_cons_self f rest)]),
      ih base (fun g hg => h g (List.mem_cons_of_mem f hg))]
    rfl

theorem addBasePathSymlinks_allRel :
    ∀ (l : List SymlinkP) (base : NPath),
      (∀ s ∈ l, s.src.isAbsolute = false ∧ s.dest.isAbsolute = false) →
      addBasePathSymlinks l base =
        (none, l.map (fun s => ⟨base.joinP s.src, base.joinP s.dest⟩)) := by
  intro l
  induction l with
  | nil => intro base _; rfl
  | cons s rest ih =>
    intro base h
    unfold addBasePathSymlinks
    rw [if_neg (by simp [(h s (List.mem_cons_self s rest)).1]),
      if_neg (by simp [(h s (List.mem_cons_self s rest)).2]),
      ih base (fun g hg => h g (List.mem_cons_of_mem s hg))]
    rfl

theorem addBasePathRemoves_allRel :
    ∀ (l : List RemovePath) (base : NPath), (∀ r ∈ l, r.path.isAbsolute = false) →
      addBasePathRemoves l base =
        (none, l.map (fun r => { r with path := base.joinP r.path })) := by
  intro l
  induction l with
  | nil => intro base _; rfl
  | cons r rest ih =>
    intro base h
    unfold addBasePathRemoves
    rw [if_neg (by simp [h r (List.mem_cons_self r rest)]),
      ih base (fun g hg => h g (List.mem_cons_of_mem r hg))]
    rfl

theorem addBasePathFiles_hasAbs :
    ∀ (l : List PFile) (base : NPath), (∃ f ∈ l, f.base.isAbsolute = true) →
      ∃ err l2, addBasePathFiles l base = (some err, l2) := by
  intro l
  induction l with
  | nil => intro base h; simp at h
  | cons f rest ih =>
    intro base h
    unfold addBasePathFiles
    by_cases hf : f.base.isAbsolute = true
    · rw [if_pos hf]
      exact ⟨.expectedRelative f.base, f :: rest, rfl⟩
    · rw [if_neg hf]
      have hrest : ∃ g ∈ rest, g.base.isAbsolute = true := by
        obtain ⟨g, hg, hga⟩ := h
        rcases List.mem_cons.mp hg with h1 | h2
        · exact absurd (h1 ▸ hga) hf
        · exact ⟨g, h2, hga⟩
      obtain ⟨err, l2, hl2⟩ := ih base hrest
      rw [hl2]
      exact ⟨err, _, rfl⟩

theorem addBasePathSymlinks_hasAbs :
    ∀ (l : List SymlinkP) (base : NPath),
      (∃ s ∈ l, s.src.isAbsolute = true ∨ s.dest.isAbsolute = true) →
      ∃ err l2, addBasePathSymlinks l base = (some err, l2) := by
  intro l
  induction l with
  | nil => intro base h; simp at h
  | cons s rest ih =>
    intro base h
    unfold addBasePathSymlinks
    by_cases hs : s.src.isAbsolute = true
    · rw [if_pos hs]
      exact ⟨.expectedRelative s.src, s :: rest, rfl⟩
    · rw [if_neg hs]
      by_cases hd : s.dest.isAbsolute = true
      · rw [if_pos hd]
        exact ⟨.expectedRelative s.dest, s :: rest, rfl⟩
      · rw [if_neg hd]
        have hrest : ∃ g ∈ rest, g.src.isAbsolute = true ∨ g.dest.isAbsolute = true := by
          obtain ⟨g, hg, hga⟩ := h
          rcases List.mem_cons.mp hg with h1 | h2
          · subst h1
            rcases hga with h3 | h3
            · exact absurd h3 hs
            · exact absurd h3 hd
          · exact ⟨g, h2, hga⟩
        obtain ⟨err, l2, hl2⟩ := ih base hrest
        rw [hl2]
        exact ⟨err, _, rfl⟩

theorem addBasePathRemoves_hasAbs :
    ∀ (l : List RemovePath) (base : NPath), (∃ r ∈ l, r.path.isAbsolute = true) →
      ∃ err l2, addBasePathRemoves l base = (some err, l2) := by
  intro l
  induction l with
  | nil => intro base h; simp at h
  | cons r rest ih =>
    intro base h
    unfold addBasePathRemoves
    by_cases hr : r.path.isAbsolute = true
    · rw [if_pos hr]
      exact ⟨.expectedRelative r.path, r :: rest, rfl⟩
    · rw [if_neg hr]
      have hrest : ∃ g ∈ rest, g.path.isAbsolute = true := by
        obtain ⟨g, hg, hga⟩ := h
        rcases List.mem_cons.mp hg with h1 | h2
        · exact absurd (h1 ▸ hga) hr
        · exact ⟨g, h2, hga⟩
      obtain ⟨err, l2, hl2⟩ := ih base hrest
      rw [hl2]
      exact ⟨err, _, rfl⟩

theorem addBasePath_ok_of_allRel {d : DataToPersist} {base : NPath}
    (h : AllRelD d) : d.addBasePath base = .ok (d.joinAll base) := by
  obtain ⟨hf, hs, hr⟩ := h
  unfold DataToPersist.addBasePath DataToPersist.addBasePathRes
  rw [addBasePathFiles_allRel d.files base hf,
    addBasePathSymlinks_allRel d.symlinks base hs,
    addBasePathRemoves_allRel d.remove base hr]
  rfl

theorem addBasePath_error_of_hasAbs {d : DataToPersist} {base : NPath}
    (h : HasAbsD d) : ∃ e, d.addBasePath base = .error e := by
  unfold DataToPersist.addBasePath DataToPersist.addBasePathRes
  rcases h with hf | hs | hr
  · obtain ⟨err, l2, hl2⟩ := addBasePathFiles_hasAbs d.files base hf
    rw [hl2]
    exact ⟨err, rfl⟩
  · cases hfp : addBasePathFiles d.files base with
    | mk e1 files2 =>
      cases e1 with
      | some err => exact ⟨err, rfl⟩
      | none =>
        obtain ⟨err, l2, hl2⟩ := addBasePathSymlinks_hasAbs d.symlinks base hs
        rw [hl2]
        exact ⟨err, rfl⟩
  · cases hfp : addBasePathFiles d.files base with
    | mk e1 files2 =>
      cases e1 with
      | some err => exact ⟨err, rfl⟩
      | none =>
        cases hsp : addBasePathSymlinks d.symlinks base with
        | mk e2 sl2 =>
          cases e2 with
          | some err => exact ⟨err, rfl⟩
          | none =>
            obtain ⟨err, l2, hl2⟩ := addBasePathRemoves_hasAbs d.remove base hr
            rw [hl2]
            exact ⟨err, rfl⟩

theorem nonempty_joinAll_hasAbs {d : DataToPersist} {base : NPath}
    (hbase : base.isAbsolute = true)
    (hne : d.files ≠ [] ∨ d.symlinks ≠ [] ∨ d.remove ≠ []) :
    HasAbsD (d.joinAll base) := by
  rcases hne with h | h | h
  · obtain ⟨f, hf⟩ := List.exists_mem_of_ne_nil _ h
    exact Or.inl ⟨{ f with base := base.joinP f.base },
      List.mem_map_of_mem _ hf, hbase⟩
  · obtain ⟨s, hs⟩ := List.exists_mem_of_ne_nil _ h
    exact Or.inr (Or.inl ⟨⟨base.joinP s.src, base.joinP s.dest⟩,
      List.mem_map_of_mem _ hs, Or.inl hbase⟩)
  · obtain ⟨r, hr⟩ := List.exists_mem_of_ne_nil _ h
    exact Or.inr (Or.inr ⟨{ r with path := base.joinP r.path },
      List.mem_map_of_mem _ hr, hbase⟩)

/-- C8 (amended): for a Change-Set whose pending paths are all relative,
rebase joins every pending path (write bases, both symlink endpoints,
removal paths) onto the base and succeeds; a second rebase of the result
fails provided the base is absolute and at least one entry is pending; and
in general rebase fails whenever any pending path is already absolute at
that point. -/
theorem addBasePath_rebase_spec :
    (∀ (d : DataToPersist) (base : NPath), AllRelD d →
        d.addBasePath base = .ok (d.joinAll base)) ∧
    (∀ (d : DataToPersist) (base : NPath), AllRelD d → base.isAbsolute = true →
        (d.files ≠ [] ∨ d.symlinks ≠ [] ∨ d.remove ≠ []) →
        ∃ e, (d.joinAll base).addBasePath base = .error e) ∧
    (∀ (d : DataToPersist) (base : NPath), HasAbsD d →
        ∃ e, d.addBasePath base = .error e) :=
  ⟨fun _ _ h => addBasePath_ok_of_allRel h,
   fun _ _ _ hbase hne => addBasePath_error_of_hasAbs (nonempty_joinAll_hasAbs hbase hne),
   fun _ _ h => addBasePath_error_of_hasAbs h⟩

/-- A Change-Set with one relative pending removal "x". -/
def dtpRebase : DataToPersist := ⟨[], [], [⟨⟨false, ["x"]⟩, false⟩]⟩

/-- The relative base "b". -/
def baseRel : NPath := ⟨false, ["b"]⟩

/-- C8 counterexample: rebasing a Change-Set of relative paths onto a
relative base succeeds, and — contrary to the claim that the second rebase
of the same Change-Set always fails — the second rebase succeeds as well,
because the paths are still not absolute. -/
theorem addBasePath_twice_counterexample :
    dtpRebase.addBasePath baseRel = .ok ⟨[], [], [⟨⟨false, ["b", "x"]⟩, false⟩]⟩ ∧
    DataToPersist.addBasePath ⟨[], [], [⟨⟨false, ["b", "x"]⟩, false⟩]⟩ baseRel =
      .ok ⟨[], [], [⟨⟨false, ["b", "b", "x"]⟩, false⟩]⟩ :=
  ⟨rfl, rfl⟩

/-- The absolute base "/root". -/
def baseAbs : NPath := ⟨true, ["root"]⟩

theorem addBasePath_rebase_spec_witness :
    dtpRebase.addBasePath baseAbs = .ok (dtpRebase.joinAll baseAbs) ∧
    (∃ e, (dtpRebase.joinAll baseAbs).addBasePath baseAbs = .error e) ∧
    (∃ e, DataToPersist.addBasePath ⟨[], [], [⟨⟨true, ["x"]⟩, false⟩]⟩ baseAbs = .error e) :=
  ⟨addBasePath_rebase_spec.1 dtpRebase baseAbs (by refine ⟨?_, ?_, ?_⟩ <;> decide),
   addBasePath_rebase_spec.2.1 dtpRebase baseAbs (by refine ⟨?_, ?_, ?_⟩ <;> decide) rfl
     (Or.inr (Or.inr (by decide))),
   addBasePath_rebase_spec.2.2 ⟨[], [], [⟨⟨true, ["x"]⟩, false⟩]⟩ baseAbs
     (Or.inr (Or.inr ⟨⟨⟨true, ["x"]⟩, false⟩, by decide, rfl⟩))⟩

theorem addBasePathFiles_split (base : NPath) :
    ∀ (goodf : List PFile) (badf : PFile) (restf : List PFile),
      (∀ f ∈ goodf, f.base.isAbsolute = false) → badf.base.isAbsolute = true →
      addBasePathFiles (goodf ++ badf :: restf) base =
        (some (.expectedRelative badf.base),
         goodf.map (fun f => { f with base := base.joinP f.base }) ++ badf :: restf) := by
  intro goodf
  induction goodf with
  | nil =>
    intro badf restf _ hbad
    unfold addBasePathFiles
    simp only [List.nil_append]
    rw [if_pos hbad]
    rfl
  | cons f rest ih =>
    intro badf restf h hbad
    unfold addBasePathFiles
    simp only [List.cons_append]
    rw [if_neg (by simp [h f (List.mem_cons_self f rest)]),
      ih badf restf (fun g hg => h g (List.mem_cons_of_mem f hg)) hbad]
    rfl

theorem addBasePathSymlinks_split (base : NPath) :
    ∀ (goods : List SymlinkP) (bads : SymlinkP) (rests : List SymlinkP),
      (∀ s ∈ goods, s.src.isAbsolute = false ∧ s.dest.isAbsolute = false) →
      bads.src.isAbsolute = true →
      addBasePathSymlinks (goods ++ bads :: rests) base =
        (some (.expectedRelative bads.src),
         goods.map (fun s => ⟨base.joinP s.src, base.joinP s.dest⟩) ++ bads :: rests) := by
  intro goods
  induction goods with
  | nil =>
    intro bads rests _ hbad
    unfold addBasePathSymlinks
    simp only [List.nil_append]
    rw [if_pos hbad]
    rfl
  | cons s rest ih =>
    intro bads rests h hbad
    unfold addBasePathSymlinks
    simp only [List.cons_append]
    rw [if_neg (by simp [(h s (List.mem_cons_self s rest)).1]),
      if_neg (by simp [(h s (List.mem_cons_self s rest)).2]),
      ih bads rests (fun g hg => h g (List.mem_cons_of_mem s hg)) hbad]
    rfl

/-- C10: the rebase pass is not atomic on failure.  It processes all
pending writes, then all symlinks, then all removals, asserting relativity
per entry just before rewriting it; when a later entry is found absolute,
every entry processed before it keeps its rebased (joined) form, while the
failing entry and everything after it stay untouched — the Change-Set is
left partially mutated, not restored. -/
theorem addBasePath_partial_mutation :
    (∀ (d : DataToPersist) (base : NPath) (goodf : List PFile) (badf : PFile)
        (restf : List PFile),
        d.files = goodf ++ badf :: restf →
        (∀ f ∈ goodf, f.base.isAbsolute = false) →
        badf.base.isAbsolute = true →
        d.addBasePathRes base =
          (some (.expectedRelative badf.base),
           { d with files :=
               goodf.map (fun f => { f with base := base.joinP f.base }) ++
                 badf :: restf })) ∧
    (∀ (d : DataToPersist) (base : NPath) (goods : List SymlinkP) (bads : SymlinkP)
        (rests : List SymlinkP),
        (∀ f ∈ d.files, f.base.isAbsolute = false) →
        d.symlinks = goods ++ bads :: rests →
        (∀ s ∈ goods, s.src.isAbsolute = false ∧ s.dest.isAbsolute = false) →
        bads.src.isAbsolute = true →
        d.addBasePathRes base =
          (some (.expectedRelative bads.src),
           { d with
               files := d.files.map (fun f => { f with base := base.joinP f.base }),
               symlinks :=
                 goods.map (fun s => ⟨base.joinP s.src, base.joinP s.dest⟩) ++
                   bads :: rests })) := by
  constructor
  · intro d base goodf badf restf hfiles hgood hbad
    unfold DataToPersist.addBasePathRes
    rw [hfiles, addBasePathFiles_split base goodf badf restf hgood hbad]
  · intro d base goods bads rests hfiles hsyms hgood hbad
    unfold DataToPersist.addBasePathRes
    rw [addBasePathFiles_allRel d.files base hfiles,
      hsyms, addBasePathSymlinks_split base goods bads rests hgood hbad]

/-- A Change-Set holding one relative pending write, one symlink whose
source is already absolute, and one relative removal. -/
def dtpMixed : DataToPersist :=
  ⟨[⟨⟨false, ["w"]⟩, [], "c", false⟩], [⟨⟨true, ["s"]⟩, ⟨false, ["t"]⟩⟩],
   [⟨⟨false, ["r"]⟩, false⟩]⟩

theorem addBasePath_partial_mutation_witness :
    dtpMixed.addBasePathRes baseAbs =
      (some (.expectedRelative ⟨true, ["s"]⟩),
       { dtpMixed with
           files := dtpMixed.files.map (fun f => { f with base := baseAbs.joinP f.base }),
           symlinks :=
             ([] : List SymlinkP).map (fun s => ⟨baseAbs.joinP s.src, baseAbs.joinP s.dest⟩) ++
               ⟨⟨true, ["s"]⟩, ⟨false, ["t"]⟩⟩ :: [] }) :=
  addBasePath_partial_mutation.2 dtpMixed baseAbs [] ⟨⟨true, ["s"]⟩, ⟨false, ["t"]⟩⟩ []
    (by intro f hf; simp [dtpMixed] at hf; rw [hf]; rfl) rfl
    (by intro s hs; simp at hs) rfl

/-! ## Add resolver (`addAction`): data model

The resolver itself is embedded from the source.  Its collaborators —
the persistent Component Index (`BitMap`), component identifiers (`BitId`),
and the filesystem / glob / pattern utilities — are not part of the
embedded sources; they are modelled from the specification (sections 3,
4.1, 4.2 and 6) or abstracted as environment functions. -/

/-- A file record of a component: tree-relative path, test flag, basename. -/
structure FileRec where
  relativePath : String
  test : Bool
  name : String
deriving DecidableEq, Repr

/-- Provenance of a tracked component. -/
inductive Origin where
  | authored
  | imported
  | nested
deriving DecidableEq, Repr

/-- Modelled from the spec: a Component Index entry
`{id, files, mainFile, origin, rootDir}` keyed by its canonical id string. -/
structure BitMapEntry where
  id : String
  files : List FileRec
  mainFile : Option String
  origin : Origin
  rootDir : Option String
deriving DecidableEq, Repr

/-- Modelled from the spec: the persistent Component Index (BitMap),
a collection of entries, each relativePath resolving to one entry. -/
structure BitMap where
  entries : List BitMapEntry
deriving DecidableEq, Repr

/-- Modelled from the spec: a component identifier with optional scope,
namespace (box), name and optional version. -/
structure BitId where
  scope : Option String
  box : Option String
  name : String
  version : Option String
deriving DecidableEq, Repr

/-- Modelled from the spec: "box and name" form, ignoring scope/version. -/
def BitId.toStringWithoutScopeAndVersion (b : BitId) : String :=
  match b.box with
  | some bx => bx ++ "/" ++ b.name
  | none => b.name

/-- Modelled from the spec: the id string without its version. -/
def BitId.toStringWithoutVersion (b : BitId) : String :=
  match b.scope with
  | some sc => sc ++ "/" ++ b.toStringWithoutScopeAndVersion
  | none => b.toStringWithoutScopeAndVersion

/-- Modelled from the spec: the full id string. -/
def BitId.toString (b : BitId) : String :=
  match b.version with
  | some v => b.toStringWithoutVersion ++ "@" ++ v
  | none => b.toStringWithoutVersion

/-- Character-level split (kernel-reducible rendering of `splitOn` for a
one-character separator). -/
def splitCharAux (sep : Char) : List Char → List Char → List (List Char)
  | [], acc => [acc.reverse]
  | c :: cs, acc =>
    if c = sep then acc.reverse :: splitCharAux sep cs []
    else splitCharAux sep cs (c :: acc)

/-- Split a string on a separator character. -/
def splitStr (sep : Char) (s : String) : List String :=
  (splitCharAux sep s.data []).map (fun l => ⟨l⟩)

/-- Join strings with a separator. -/
def joinWith (sep : String) : List String → String
  | [] => ""
  | [x] => x
  | x :: xs => x ++ sep ++ joinWith sep xs

/-- Modelled from the spec: parse an id string
`[scope/]box/name[@version]` back into its parts. -/
def BitId.parse (s : String) : BitId :=
  let parts := splitStr '@' s
  let core := parts.headD s
  let version : Option String :=
    match parts with
    | _ :: v :: rest => some (joinWith "@" (v :: rest))
    | _ => none
  match splitStr '/' core with
  | [bx, n] => ⟨none, some bx, n, version⟩
  | [sc, bx, n] => ⟨some sc, some bx, n, version⟩
  | _ => ⟨none, none, core, version⟩

/-- Modelled from the spec: build a valid default id from a namespace and a
name. -/
def BitId.getValidBitId (ns nm : String) : BitId := ⟨none, some ns, nm, none⟩

/-- JavaScript string truthiness of an optional string argument. -/
def strTruthy : Option String → Bool
  | some s => !(s == "")
  | none => false

/-- JavaScript `a || b` over an optional string and a default. -/
def optStrOr (o : Option String) (d : String) : String :=
  match o with
  | some s => if s == "" then d else s
  | none => d

/-- Modelled from the spec: equality of two id strings on namespace+name
only ("box and name"), the fuzzy-lookup key. -/
def sameBoxAndName (a b : String) : Bool :=
  (BitId.parse a).toStringWithoutScopeAndVersion ==
    (BitId.parse b).toStringWithoutScopeAndVersion

/-- Modelled from the spec: exact id lookup. -/
def BitMap.getComponentExact (bm : BitMap) (idStr : String) : Option BitMapEntry :=
  bm.entries.find? (fun e => e.id == idStr)

/-- Modelled from the spec: exact id lookup, falling back to the
namespace+name match when allowed. -/
def BitMap.getComponentFuzzy (bm : BitMap) (idStr : String) : Option BitMapEntry :=
  match bm.getComponentExact idStr with
  | some e => some e
  | none => bm.entries.find? (fun e => sameBoxAndName e.id idStr)

/-- Modelled from the spec: `getComponent(id, shouldThrow := false,
includeSearchByBoxAndNameOnly)`. -/
def BitMap.getComponent (bm : BitMap) (idStr : String) (fuzzy : Bool) :
    Option BitMapEntry :=
  if fuzzy then bm.getComponentFuzzy idStr else bm.getComponentExact idStr

/-- Modelled from the spec: the canonical existing id string matching the
given id, found fuzzily. -/
def BitMap.getExistingComponentId (bm : BitMap) (idStr : String) : Option String :=
  (bm.getComponentFuzzy idStr).map (fun e => e.id)

/-- Modelled from the spec: the id of the entry tracking the given
relative path, when one does. -/
def BitMap.getComponentIdByPath (bm : BitMap) (p : String) : Option String :=
  (bm.entries.find? (fun e => e.files.any (fun f => f.relativePath == p))).map
    (fun e => e.id)

/-- Union of file records keyed by relativePath, first list winning on a
shared key (lodash `unionBy` / the spec's merge rule). -/
def unionByRelKeepFirst (a b : List FileRec) : List FileRec :=
  a ++ b.filter (fun f => !(a.any (fun g => g.relativePath == f.relativePath)))

/-- Modelled from the spec: `upsert` — create the entry when the id is new
(origin as supplied, no rootDir), otherwise merge file sets by
relativePath (override letting the new files win) and replace the main
file when one is supplied. -/
def BitMap.addComponent (bm : BitMap) (cid : BitId) (files : List FileRec)
    (mainFile : Option String) (origin : Origin) (ov : Bool) : BitMap :=
  match bm.getComponentFuzzy cid.toString with
  | some e =>
    let merged := if ov then unionByRelKeepFirst files e.files
                  else unionByRelKeepFirst e.files files
    let newMain := match mainFile with
      | some m => some m
      | none => e.mainFile
    ⟨bm.entries.map (fun e2 =>
      if e2.id == e.id then { e2 with files := merged, mainFile := newMain } else e2)⟩
  | none => ⟨bm.entries ++ [⟨cid.toString, files, mainFile, origin, none⟩]⟩

/-- The warnings accumulator: an object keyed by component id holding the
relative paths already tracked elsewhere. -/
abbrev Warnings := List (String × List String)

/-- `warnings[k]` is set. -/
def warnHas (w : Warnings) (k : String) : Bool := w.any (fun kv => kv.fst == k)

/-- `warnings[k].push v` (assumes the key is present). -/
def warnPush (w : Warnings) (k v : String) : Warnings :=
  w.map (fun kv => if kv.fst == k then (kv.fst, kv.snd ++ [v]) else kv)

/-- `warnings[k] = v` (replace or insert). -/
def warnSet (w : Warnings) (k : String) (v : List String) : Warnings :=
  if warnHas w k then w.map (fun kv => if kv.fst == k then (kv.fst, v) else kv)
  else w ++ [(k, v)]

/-- `if (warnings[k]) warnings[k].push(v); else warnings[k] = [v]`. -/
def warnAdd (w : Warnings) (k v : String) : Warnings :=
  if warnHas w k then warnPush w k v else w ++ [(k, [v])]

/-- First-occurrence deduplication (`R.uniq`, object-key insertion order). -/
def dedupFirstAux : List String → List String → List String
  | [], _ => []
  | x :: xs, seen =>
    if seen.contains x then dedupFirstAux xs seen
    else x :: dedupFirstAux xs (x :: seen)

/-- First-occurrence deduplication of a string list. -/
def dedupFirst (l : List String) : List String := dedupFirstAux l []

/-- Grouping by string key with keys in first-occurrence order and values
in list order (lodash `groupby` / `R.groupBy`). -/
def groupByKey {α : Type} (xs : List (String × α)) : List (String × List α) :=
  (dedupFirst (xs.map Prod.fst)).map
    (fun k => (k, (xs.filter (fun kv => kv.fst == k)).map Prod.snd))

/-- Structured rendering of the errors the add resolver throws. -/
inductive AddErr where
  /-- `PathNotExists` with the offending path(s). -/
  | pathNotExists (paths : List String)
  /-- `NoFiles` with the ignore-filtered difference. -/
  | noFiles (diff : List String)
  /-- `EmptyDirectory`. -/
  | emptyDirectory
  /-- `MissingComponentIdForImportedComponent`, naming the tracked id. -/
  | missingIdImported (trackedId : String)
  /-- `IncorrectIdForImportedComponent`, naming expected and supplied ids. -/
  | incorrectIdImported (expected supplied : String)
  /-- `DuplicateIds`, naming the duplicated id strings. -/
  | duplicateIds (ids : List String)
  /-- The ownership-violation error for Nested entries, naming the
  existing component id. -/
  | nestedOwnership (existingId : String)
  /-- A JavaScript TypeError (property access on `undefined`); unreachable
  on the specified input shapes. -/
  | internalTypeError
deriving DecidableEq, Repr

/-- The environment of one `addAction` invocation: the arguments, the index
read at operation start, and the filesystem / glob / pattern collaborators
(abstracted as pure functions; they are outside the embedded sources and
are consumed only through these interfaces).  `tests` is the test-pattern
list the CLI caller supplies (possibly empty); `exclude` mirrors the
optional exclude argument. -/
structure Env where
  bitMap : BitMap
  componentPaths : List String
  idArg : Option String
  mainArg : Option String
  nsArg : Option String
  tests : List String
  exclude : Option (List String)
  override : Bool
  /-- bare `glob(pattern)`. -/
  globPlain : String → List String
  /-- `glob(path.join(relDir, '**'), {cwd, nodir: true})`. -/
  globDir : String → List String
  /-- `glob(pattern, {ignore: ignoreList})`. -/
  globIgnore : String → List String
  /-- whether the gitignore filter drops this path. -/
  ignoreDrops : String → Bool
  existsFS : String → Bool
  isDirFS : String → Bool
  /-- `isAutoGeneratedFile`. -/
  isAutoGen : String → Bool
  /-- `format(dsl, calculateFileInfo(file))`. -/
  formatDsl : String → String → String
  /-- `getPathRelativeToProjectRoot` / `getPathRelativeToConsumer`. -/
  relToConsumer : String → String
  /-- `pathNormalizeToLinux`. -/
  toLinux : String → String
  /-- `path.normalize`. -/
  osNormalize : String → String
  /-- `path.basename`. -/
  baseName : String → String
  /-- last segment of the resolved directory path. -/
  lastSeg : String → String
  /-- second-to-last segment of the resolved directory path. -/
  secondLastSeg : String → String
  /-- last segment of a file's containing directory. -/
  fileDirLastSeg : String → String
  /-- `path.parse(resolvedPath).name`. -/
  fileStem : String → String
  /-- `path.relative`. -/
  pathRelative : String → String → String
  /-- `path.join`. -/
  pathJoin : String → String → String
  consumerPath : String
  /-- `getMissingTestFiles(tests)`: the test paths that do not exist. -/
  missingTestFiles : List String
  /-- `mainFile.match(REGEX_PATTERN)`: the main argument is a DSL pattern. -/
  isDslPattern : String → Bool

/-- A transient candidate component built by the resolver. -/
structure Component where
  componentId : BitId
  files : List FileRec
  mainFile : Option String
deriving DecidableEq, Repr

/-- One successfully tracked result `{id, files}`. -/
structure AddedComponent where
  id : String
  files : List FileRec
deriving DecidableEq, Repr

/-- A validated user path with its directory flag. -/
structure PathStat where
  path : String
  isDir : Bool
deriving DecidableEq, Repr

/-- `getFiles(files, testFiles)`: expand each DSL pattern against each
file's info, glob with the ignore list, keep existing matches, dedup, and
normalize relative to the consumer. -/
def getFiles (env : Env) (files testFiles : List String) : List String :=
  let raw := testFiles.flatMap (fun dsl =>
    files.flatMap (fun f => (env.globIgnore (env.formatDsl dsl f)).filter env.existsFS))
  (dedupFirst raw).map (fun t => env.toLinux (env.relToConsumer t))

/-- `mergeTestFilesWithFiles`: resolve the test patterns against the file
set and union them in (test records taking precedence by relativePath). -/
def mergeTestFilesWithFiles (env : Env) (files : List FileRec) : List FileRec :=
  let testFilesArr := if env.tests.isEmpty then [] else
    getFiles env (files.map (fun f => f.relativePath)) env.tests
  let resolvedTestFiles : List FileRec :=
    testFilesArr.map (fun t => ⟨t, true, env.baseName t⟩)
  unionByRelKeepFirst resolvedTestFiles files

/-- `addMainFileToFiles`: when the main argument is a nonempty DSL pattern,
walk the original file list, resolving the pattern per file against the
current collection (pushing a newly found on-disk main file); then resolve
the final main path against the consumer root.  An absent or empty main
argument yields no main file. -/
def addMainFileToFiles (env : Env) (files0 : List FileRec) (mainArg : Option String) :
    List FileRec × Option String :=
  match mainArg with
  | none => (files0, none)
  | some mf =>
    let st :=
      if !(mf == "") && env.isDslPattern mf then
        files0.foldl (fun (acc : List FileRec × String) f =>
          let generated := env.formatDsl acc.2 f.relativePath
          let foundFile := acc.1.find? (fun g => g.relativePath == generated)
          let m1 := match foundFile with
            | some g => g.relativePath
            | none => acc.2
          if env.existsFS generated && foundFile.isNone then
            (acc.1 ++ [⟨generated, false, env.baseName generated⟩], generated)
          else (acc.1, m1)) (files0, mf)
      else (files0, mf)
    if st.2 == "" then (st.1, none)
    else
      let mainPath := env.pathJoin env.consumerPath (env.relToConsumer st.2)
      if env.existsFS mainPath then (st.1, some (env.relToConsumer mainPath))
      else (st.1, some st.2)

/-- The closure state of `addOneComponent`: `componentExists`, `parsedId`
and `foundId`. -/
structure ResolverState where
  componentExists : Bool
  parsedId : Option BitId
  foundId : Option String
deriving DecidableEq, Repr

/-- The initial resolver state. -/
def initResolverState : ResolverState := ⟨false, none, none⟩

/-- `updateIdAccordingToExistingComponent(currentId)`: resolve the id
against the index (fuzzily); a resolved entry of Nested origin is the
ownership violation; otherwise remember the canonical id and parse it. -/
def updateIdAccording (bm : BitMap) (st : ResolverState) (currentId : String) :
    Except AddErr ResolverState :=
  match bm.getExistingComponentId currentId with
  | some eid =>
    if (bm.getComponentExact eid).map (fun e => e.origin) = some Origin.nested then
      .error (.nestedOwnership eid)
    else
      .ok ⟨true, some (BitId.parse eid), some eid⟩
  | none => .ok ⟨false, some (BitId.parse currentId), st.foundId⟩

/-- The per-path body of `addOneComponent`: a directory glob-expands
beneath the consumer (EmptyDirectory when the ignore filter leaves
nothing), derives a default id from its last two segments unless one is
already resolved; a standalone file derives its id from its directory and
stem and immediately reconciles it against the index.  Both merge test
files and resolve the main file. -/
def processOnePath (env : Env) (bm : BitMap) (st : ResolverState) (ps : PathStat) :
    Except AddErr (ResolverState × Component) :=
  if ps.isDir then
    let relativeComponentPath := env.relToConsumer ps.path
    let lastDir := env.lastSeg ps.path
    let nameSpaceOrDir := optStrOr env.nsArg (env.secondLastSeg ps.path)
    let globMatches := env.globDir relativeComponentPath
    let filteredMatches := globMatches.filter (fun m => !env.ignoreDrops m)
    if filteredMatches.isEmpty then .error .emptyDirectory
    else
      let files := filteredMatches.map
        (fun m => (⟨env.toLinux m, false, env.baseName m⟩ : FileRec))
      let files2 := mergeTestFilesWithFiles env files
      let res := addMainFileToFiles env files2 (env.mainArg.map env.toLinux)
      let pid := match st.parsedId with
        | some pid => pid
        | none => BitId.getValidBitId nameSpaceOrDir lastDir
      .ok (⟨st.componentExists, some pid, st.foundId⟩, ⟨pid, res.1, res.2⟩)
  else
    let relativeFilePath := env.relToConsumer ps.path
    let stE : Except AddErr ResolverState :=
      match st.parsedId with
      | some _ => .ok st
      | none =>
        let nameSpaceOrLastDir := optStrOr env.nsArg (env.fileDirLastSeg ps.path)
        let derived := BitId.getValidBitId nameSpaceOrLastDir (env.fileStem ps.path)
        updateIdAccording bm { st with parsedId := some derived } derived.toString
    match stE with
    | .error e => .error e
    | .ok st2 =>
      match st2.parsedId with
      | none => .error .internalTypeError
      | some pid =>
        let files : List FileRec :=
          [⟨env.toLinux relativeFilePath, false, env.baseName relativeFilePath⟩]
        let files2 := mergeTestFilesWithFiles env files
        let res := addMainFileToFiles env files2 env.mainArg
        .ok (st2, ⟨pid, res.1, res.2⟩)

/-- The path loop of `addOneComponent`, threading the closure state. -/
def processPaths (env : Env) (bm : BitMap) :
    List PathStat → ResolverState → Except AddErr (ResolverState × List Component)
  | [], st => .ok (st, [])
  | ps :: rest, st => do
    let (st2, c) ← processOnePath env bm st ps
    let (st3, cs) ← processPaths env bm rest st2
    .ok (st3, c :: cs)

/-- `removeExcludedFiles`: resolve the exclude patterns against every
candidate file; a candidate whose main file is excluded loses its whole
file set, otherwise only the excluded files. -/
def removeExcludedFiles (env : Env) (mapValues : List Component)
    (excludedList : List String) : List Component :=
  let files := (mapValues.map (fun c => c.files.map (fun f => f.relativePath))).flatten
  let resolvedExcludedFiles := getFiles env files excludedList
  mapValues.map (fun c =>
    let mainLinux := c.mainFile.map env.toLinux
    let mainExcluded := match mainLinux with
      | some m => resolvedExcludedFiles.contains m
      | none => false
    if mainExcluded then { c with files := [] }
    else { c with files :=
      c.files.filter (fun f => !resolvedExcludedFiles.contains f.relativePath) })

/-- lodash `assignwith(... , (val1, val2) => val1 || val2)` over one
relativePath group: per field, the first truthy value wins. -/
def mergeFileRecGroup (k : String) (g : List FileRec) : FileRec :=
  ⟨k, g.any (fun f => f.test),
   (((g.find? (fun f => !(f.name == ""))).map (fun f => f.name)).getD "")⟩

/-- `addOneComponent(componentPathsStats, consumer)`. -/
def addOneComponent (env : Env) (stats : List PathStat) (bm : BitMap) :
    Except AddErr Component := do
  let st1 ←
    if strTruthy env.idArg then
      updateIdAccording bm initResolverState (env.idArg.getD "")
    else .ok initResolverState
  let (_, mapValues0) ← processPaths env bm stats st1
  let mapValues1 := match env.exclude with
    | some exclList => removeExcludedFiles env mapValues0 exclList
    | none => mapValues0
  match mapValues1 with
  | [] => .error .internalTypeError
  | c0 :: _ =>
    let mapValues2 := mapValues1.filter (fun c => !c.files.isEmpty)
    match mapValues2 with
    | [] => .ok ⟨c0.componentId, [], none⟩
    | [c] => .ok c
    | c1 :: _ =>
      let allFiles := (mapValues2.map (fun c => c.files)).flatten
      let grouped := groupByKey (allFiles.map (fun f => (f.relativePath, f)))
      let uniqComponents := grouped.map (fun kv => mergeFileRecGroup kv.1 kv.2)
      .ok ⟨c0.componentId, uniqComponents, c1.mainFile⟩

/-- `groupFilesByComponentId`: key each file by the id already tracking its
path, defaulting to the candidate's id, and group. -/
def groupFilesByComponentId (cid : BitId) (files : List FileRec) (bm : BitMap) :
    List (String × List FileRec) :=
  groupByKey (files.map
    (fun f => ((bm.getComponentIdByPath f.relativePath).getD cid.toString, f)))

/-- `addToBitMap`: upsert as Authored with the override flag, then read the
stored entry's files back. -/
def addToBitMap (env : Env) (bm : BitMap) (c : Component) :
    Except AddErr (BitMap × AddedComponent) :=
  let bm2 := bm.addComponent c.componentId c.files c.mainFile Origin.authored env.override
  match bm2.getComponentExact c.componentId.toString with
  | some e => .ok (bm2, ⟨c.componentId.toString, e.files⟩)
  | none => .error .internalTypeError

/-- One file of a group whose id is already in the index
(`addOrUpdateExistingComponentsInBitMap`, found branch).  Auto-generated
files are dropped.  For a rootDir-bearing (Imported) entry the caller must
have supplied an id matching the tracked id without scope and version or
without version, else the missing-id / incorrect-id errors are thrown;
then a file matching the entry relative to its rootDir is returned in its
rootDir-joined form, the index entry's file object being updated in place
(the source mutates the live object).  Any other file is kept, with a
warning when a different component tracks its path. -/
def processFoundFile (env : Env) (bm : BitMap) (w : Warnings) (key : String)
    (parsedBitId : BitId) (fcId : String) (f : FileRec) :
    Except AddErr (Option FileRec × BitMap × Warnings) :=
  if env.isAutoGen (env.pathJoin env.consumerPath f.relativePath) then .ok (none, bm, w)
  else
    match bm.getComponentExact fcId with
    | none => .error .internalTypeError
    | some fc =>
      let importedStep : Except AddErr (Option (FileRec × BitMap)) :=
        if !(key == "") &&
            (match fc.rootDir with | some rd => !(rd == "") | none => false) then
          match fc.rootDir with
          | none => .error .internalTypeError
          | some rd =>
            if !(strTruthy env.idArg) then
              .error (.missingIdImported parsedBitId.toStringWithoutVersion)
            else
              let idv := env.idArg.getD ""
              if !(parsedBitId.toStringWithoutScopeAndVersion == idv) &&
                  !(parsedBitId.toStringWithoutVersion == idv) then
                .error (.incorrectIdImported parsedBitId.toStringWithoutVersion idv)
              else
                let tempFile := env.pathRelative rd f.relativePath
                match fc.files.find? (fun g => g.relativePath == tempFile) with
                | some ff =>
                  let ff2 := { ff with relativePath := env.pathJoin rd ff.relativePath }
                  let bm2 : BitMap := ⟨bm.entries.map (fun e2 =>
                    if e2.id == fc.id then
                      { e2 with files := e2.files.map (fun g =>
                          if g.relativePath == tempFile then ff2 else g) }
                    else e2)⟩
                  .ok (some (ff2, bm2))
                | none => .ok none
        else .ok none
      match importedStep with
      | .error e => .error e
      | .ok (some (ff2, bm2)) => .ok (some ff2, bm2, w)
      | .ok none =>
        let cond := match bm.getComponentIdByPath f.relativePath with
          | some s => !(s == parsedBitId.toString)
          | none => true
        let w2 := if cond then warnAdd w key f.relativePath else w
        .ok (some f, bm, w2)

/-- The found-branch file map, threading index and warnings and dropping
the files mapped to nothing. -/
def processFoundFiles (env : Env) (key : String) (parsedBitId : BitId) (fcId : String) :
    List FileRec → BitMap → Warnings →
    Except AddErr (List FileRec × BitMap × Warnings)
  | [], bm, w => .ok ([], bm, w)
  | f :: rest, bm, w => do
    let (of, bm2, w2) ← processFoundFile env bm w key parsedBitId fcId f
    let (fs, bm3, w3) ← processFoundFiles env key parsedBitId fcId rest bm2 w2
    .ok ((match of with | some x => [x] | none => []) ++ fs, bm3, w3)

/-- One file of a group whose id is not in the index (else branch): a file
tracked by another component is dropped with a warning — the source checks
the presence of `warnings[bitMapComponentId]` but pushes onto
`warnings[bitMapid]`, so the push hits an undefined entry (a TypeError)
when the former exists and the latter does not. -/
def processUntrackedFile (_env : Env) (bm : BitMap) (w : Warnings) (key : String)
    (f : FileRec) : Except AddErr (Option FileRec × Warnings) :=
  match bm.getComponentIdByPath f.relativePath with
  | some bitMapid =>
    if warnHas w key then
      if warnHas w bitMapid then .ok (none, warnPush w bitMapid f.relativePath)
      else .error .internalTypeError
    else .ok (none, warnSet w bitMapid [f.relativePath])
  | none => .ok (some f, w)

/-- The else-branch file map. -/
def processUntrackedFiles (env : Env) (bm : BitMap) (key : String) :
    List FileRec → Warnings → Except AddErr (List FileRec × Warnings)
  | [], w => .ok ([], w)
  | f :: rest, w => do
    let (of, w2) ← processUntrackedFile env bm w key f
    let (fs, w3) ← processUntrackedFiles env bm key rest w2
    .ok ((match of with | some x => [x] | none => []) ++ fs, w3)

/-- The group loop of `addOrUpdateExistingComponentsInBitMap`, threading
the index, the warnings and the (mutable) candidate id. -/
def addOrUpdateGroups (env : Env) :
    List (String × List FileRec) → BitMap → Warnings → BitId → Option String →
    Except AddErr (BitMap × Warnings × BitId × List AddedComponent)
  | [], bm, w, curCid, _ => .ok (bm, w, curCid, [])
  | (key, gfiles) :: rest, bm, w, curCid, mainFile => do
    let parsedBitId := BitId.parse key
    match bm.getComponent key true with
    | some fc => do
      let (newFiles, bm2, w2) ← processFoundFiles env key parsedBitId fc.id gfiles bm w
      let located := bm2.getExistingComponentId key
      let newCid := BitId.parse (located.getD key)
      let (bm3, res) ← addToBitMap env bm2 ⟨newCid, newFiles, mainFile⟩
      let (bm4, w4, cid4, added) ← addOrUpdateGroups env rest bm3 w2 newCid mainFile
      .ok (bm4, w4, cid4, res :: added)
    | none => do
      let (newFiles, w2) ← processUntrackedFiles env bm key gfiles w
      if newFiles.isEmpty then
        addOrUpdateGroups env rest bm w2 curCid mainFile
      else do
        let (bm2, res) ← addToBitMap env bm ⟨curCid, newFiles, mainFile⟩
        let (bm3, w3, cid3, added) ← addOrUpdateGroups env rest bm2 w2 curCid mainFile
        .ok (bm3, w3, cid3, res :: added)

/-- `addOrUpdateExistingComponentsInBitMap(consumerPath, bitmap, component)`. -/
def addOrUpdateExistingComponentsInBitMap (env : Env) (bm : BitMap) (w : Warnings)
    (c : Component) : Except AddErr (BitMap × Warnings × List AddedComponent) := do
  let grouped := groupFilesByComponentId c.componentId c.files bm
  let (bm2, w2, _, added) ← addOrUpdateGroups env grouped bm w c.componentId c.mainFile
  .ok (bm2, w2, added)

/-- `validateNoDuplicateIds`: group the candidates by their id string; any
group of two or more is a duplicate-id error naming those ids. -/
def validateNoDuplicateIds (addComponents : List Component) : Except AddErr Unit :=
  let grouped := groupByKey (addComponents.map (fun c => (c.componentId.toString, c)))
  let dups := grouped.filter (fun g => decide (g.2.length > 1))
  if dups.isEmpty then .ok () else .error (.duplicateIds (dups.map (fun g => g.1)))

/-- `validatePaths(fileArray)`: the first nonexistent path aborts;
otherwise the stats object keyed by path in first-occurrence order with
each path's directory flag. -/
def validatePathsRes (env : Env) (fileArray : List String) :
    Except AddErr (List PathStat) :=
  match fileArray.find? (fun p => !env.existsFS p) with
  | some p => .error (.pathNotExists [p])
  | none => .ok ((dedupFirst fileArray).map (fun p => ⟨p, env.isDirFS p⟩))

/-- Lines 390-411: glob the user paths; filter through the ignore rules.
When the caller supplied test patterns and an id and the *unfiltered* glob
result is empty, fall back to the globbed test files as the component
paths.  Otherwise: an empty unfiltered result is PathNotExists; a nonempty
unfiltered result fully eaten by the ignore filter is NoFiles over the
symmetric difference. -/
def resolveComponentPathsStats (env : Env) : Except AddErr (List PathStat) :=
  let resolvedWithout := env.componentPaths.flatMap env.globPlain
  let resolvedWith := resolvedWithout.filter (fun p => !env.ignoreDrops p)
  let diff := resolvedWith.filter (fun p => !resolvedWithout.contains p) ++
    resolvedWithout.filter (fun p => !resolvedWith.contains p)
  if !env.tests.isEmpty && strTruthy env.idArg && resolvedWithout.isEmpty then
    validatePathsRes env (env.tests.flatMap env.globPlain)
  else
    if resolvedWithout.isEmpty then .error (.pathNotExists env.componentPaths)
    else if !resolvedWith.isEmpty then validatePathsRes env resolvedWith
    else .error (.noFiles diff)

/-- The outcome of a successful `addAction`: the flattened added
components, the warnings map, and the index as written to durable storage
by the final `bitMap.write()`. -/
structure AddResult where
  addedComponents : List AddedComponent
  warnings : Warnings
  bitMapWritten : BitMap
deriving DecidableEq, Repr

/-- `addAction`: check unknown test files, resolve the component paths,
then either treat each path as a separate candidate (more than one path
and no id) — removing test files from the path set, resolving every
candidate, rejecting duplicate ids, then reconciling each non-empty
candidate with the index — or resolve all paths as one candidate and
reconcile it; finally write the index once.  Any thrown error aborts
before the write. -/
def addAction (env : Env) : Except AddErr AddResult := do
  if !env.missingTestFiles.isEmpty then .error (.pathNotExists env.missingTestFiles)
  else do
  let stats ← resolveComponentPathsStats env
  if stats.length > 1 && !strTruthy env.idArg then do
    let testToRemove := if env.tests.isEmpty then [] else
      getFiles env (stats.map (fun s => s.path)) env.tests
    let statsKeys := testToRemove.map env.osNormalize
    let stats2 := stats.filter (fun s => !statsKeys.contains s.path)
    let addedComponents ← stats2.mapM (fun s => addOneComponent env [s] env.bitMap)
    let _ ← validateNoDuplicateIds addedComponents
    let res ← addedComponents.foldlM
      (fun (acc : BitMap × Warnings × List (List AddedComponent)) c =>
        if c.files.isEmpty then .ok acc
        else do
          let (bm2, w2, r) ← addOrUpdateExistingComponentsInBitMap env acc.1 acc.2.1 c
          .ok (bm2, w2, acc.2.2 ++ [r]))
      (env.bitMap, ([] : Warnings), ([] : List (List AddedComponent)))
    .ok ⟨res.2.2.flatten, res.2.1, res.1⟩
  else do
    let addedOne ← addOneComponent env stats env.bitMap
    if addedOne.files.isEmpty then
      .ok ⟨[], [], env.bitMap⟩
    else do
      let (bm2, w2, r) ← addOrUpdateExistingComponentsInBitMap env env.bitMap [] addedOne
      .ok ⟨r, w2, bm2⟩

/-- The durable index after an invocation: the written index on success,
the untouched initial index when the operation threw (the single
`bitMap.write()` sits after every throwing step). -/
def durableBitMapAfter (env : Env) : BitMap :=
  match addAction env with
  | .ok r => r.bitMapWritten
  | .error _ => env.bitMap

/-! ## C5: Nested-origin ownership violation -/

/-- C5: whenever an add invocation whose (truthy) explicit id resolves to an
existing index entry of Nested origin reaches the resolver, the operation
fails with the ownership-violation error naming the existing component id,
and the durable index is unchanged.  The routing hypotheses say only that
the earlier steps do not fail first (no missing test files, path
resolution succeeds). -/
theorem addAction_nested_ownership (env : Env) (s eid : String) (e : BitMapEntry)
    (hid : env.idArg = some s) (hs : s ≠ "")
    (hmt : env.missingTestFiles = [])
    (hres : ∃ stats, resolveComponentPathsStats env = .ok stats)
    (hex : env.bitMap.getExistingComponentId s = some eid)
    (hent : env.bitMap.getComponentExact eid = some e)
    (horig : e.origin = Origin.nested) :
    addAction env = .error (.nestedOwnership eid) ∧
    durableBitMapAfter env = env.bitMap := by
  obtain ⟨stats, hstats⟩ := hres
  have hs1 : strTruthy env.idArg = true := by
    rw [hid]
    simp [strTruthy, hs]
  have h2 : updateIdAccording env.bitMap initResolverState (env.idArg.getD "") =
      .error (.nestedOwnership eid) := by
    rw [hid, Option.getD_some]
    unfold updateIdAccording
    simp only [hex]
    rw [if_pos (by rw [hent]; simp only [Option.map_some']; rw [horig])]
  have h1 : addOneComponent env stats env.bitMap = .error (.nestedOwnership eid) := by
    unfold addOneComponent
    rw [if_pos hs1, h2, exbind_error]
  have hmain : addAction env = .error (.nestedOwnership eid) := by
    unfold addAction
    rw [hmt]
    rw [if_neg (by decide)]
    rw [hstats, exbind_ok]
    rw [if_neg (by rw [hs1]; simp)]
    rw [h1, exbind_error]
  exact ⟨hmain, by unfold durableBitMapAfter; rw [hmain]⟩

/-- An invocation adding path "comp" with explicit id "utils/box" while the
index already tracks "utils/box" as a Nested dependency. -/
def envC5 : Env :=
  { bitMap := ⟨[⟨"utils/box", [], none, Origin.nested, some "nm"⟩]⟩,
    componentPaths := ["comp"],
    idArg := some "utils/box",
    mainArg := none, nsArg := none, tests := [], exclude := none, override := false,
    globPlain := fun p => [p],
    globDir := fun _ => [], globIgnore := fun _ => [],
    ignoreDrops := fun _ => false,
    existsFS := fun _ => true, isDirFS := fun _ => false, isAutoGen := fun _ => false,
    formatDsl := fun _ f => f, relToConsumer := fun p => p, toLinux := fun p => p,
    osNormalize := fun p => p, baseName := fun p => p, lastSeg := fun p => p,
    secondLastSeg := fun _ => "ns", fileDirLastSeg := fun _ => "dir",
    fileStem := fun p => p, pathRelative := fun _ p => p,
    pathJoin := fun a b => a ++ "/" ++ b,
    consumerPath := "/c", missingTestFiles := [], isDslPattern := fun _ => false }

theorem addAction_nested_ownership_witness :
    addAction envC5 = .error (.nestedOwnership "utils/box") ∧
    durableBitMapAfter envC5 = envC5.bitMap :=
  addAction_nested_ownership envC5 "utils/box" "utils/box"
    ⟨"utils/box", [], none, Origin.nested, some "nm"⟩
    rfl (by decide) rfl ⟨[⟨"comp", false⟩], rfl⟩ rfl rfl rfl

/-! ## C6: imported-entry id reconciliation errors -/

theorem processFoundFile_auto (env : Env) (bm : BitMap) (w : Warnings) (key : String)
    (parsedBitId : BitId) (fcId : String) (f : FileRec)
    (hauto : env.isAutoGen (env.pathJoin env.consumerPath f.relativePath) = true) :
    processFoundFile env bm w key parsedBitId fcId f = .ok (none, bm, w) := by
  unfold processFoundFile
  rw [if_pos hauto]

theorem processFoundFile_missingId (env : Env) (bm : BitMap) (w : Warnings)
    (key : String) (parsedBitId : BitId) (fc : BitMapEntry) (rd : String) (f : FileRec)
    (hne : env.isAutoGen (env.pathJoin env.consumerPath f.relativePath) = false)
    (hexact : bm.getComponentExact fc.id = some fc)
    (hrd : fc.rootDir = some rd)
    (hkeyb : (key == "") = false) (hrdb : (rd == "") = false)
    (hid : strTruthy env.idArg = false) :
    processFoundFile env bm w key parsedBitId fc.id f =
      .error (.missingIdImported parsedBitId.toStringWithoutVersion) := by
  simp [processFoundFile, hne, hexact, hrd, hkeyb, hrdb, hid]

theorem processFoundFile_incorrectId (env : Env) (bm : BitMap) (w : Warnings)
    (key : String) (parsedBitId : BitId) (fc : BitMapEntry) (rd : String)
    (f : FileRec) (idv : String)
    (hne : env.isAutoGen (env.pathJoin env.consumerPath f.relativePath) = false)
    (hexact : bm.getComponentExact fc.id = some fc)
    (hrd : fc.rootDir = some rd)
    (hkeyb : (key == "") = false) (hrdb : (rd == "") = false)
    (hidv : env.idArg = some idv) (hidvb : (idv == "") = false)
    (hne1 : (parsedBitId.toStringWithoutScopeAndVersion == idv) = false)
    (hne2 : (parsedBitId.toStringWithoutVersion == idv) = false) :
    processFoundFile env bm w key parsedBitId fc.id f =
      .error (.incorrectIdImported parsedBitId.toStringWithoutVersion idv) := by
  have hid2 : strTruthy (some idv) = true := by simp [strTruthy, hidvb]
  simp [processFoundFile, hne, hexact, hrd, hkeyb, hrdb, hidv, hid2, hne1, hne2]

theorem processFoundFiles_err (env : Env) (key : String) (parsedBitId : BitId)
    (fc : BitMapEntry) (err : AddErr)
    (herr : ∀ (bm : BitMap) (w : Warnings) (f : FileRec),
      env.isAutoGen (env.pathJoin env.consumerPath f.relativePath) = false →
      bm.getComponentExact fc.id = some fc →
      processFoundFile env bm w key parsedBitId fc.id f = .error err) :
    ∀ (gfiles : List FileRec) (bm : BitMap) (w : Warnings),
      bm.getComponentExact fc.id = some fc →
      (∃ f ∈ gfiles, env.isAutoGen (env.pathJoin env.consumerPath f.relativePath) = false) →
      processFoundFiles env key parsedBitId fc.id gfiles bm w = .error err := by
  intro gfiles
  induction gfiles with
  | nil => intro bm w _ h; simp at h
  | cons f rest ih =>
    intro bm w hexact h
    by_cases hauto : env.isAutoGen (env.pathJoin env.consumerPath f.relativePath) = true
    · have hstep := processFoundFile_auto env bm w key parsedBitId fc.id f hauto
      have hrest : ∃ g ∈ rest,
          env.isAutoGen (env.pathJoin env.consumerPath g.relativePath) = false := by
        obtain ⟨g, hg, hga⟩ := h
        rcases List.mem_cons.mp hg with h1 | h2
        · rw [h1] at hga; rw [hga] at hauto; cases hauto
        · exact ⟨g, h2, hga⟩
      simp only [processFoundFiles, hstep, exbind_ok, ih bm w hexact hrest, exbind_error]
    · rw [Bool.not_eq_true] at hauto
      have hstep := herr bm w f hauto hexact
      simp only [processFoundFiles, hstep, exbind_error]

/-- C6: when the first file group of a candidate reconciles against an
existing rootDir-bearing (Imported) index entry and contains at least one
non-auto-generated file: with no (truthy) explicit id the operation fails
with the missing-id error naming the tracked id; with an explicit id that
matches neither the tracked id without scope and version nor the tracked
id without version it fails with the error naming both the expected and
the supplied id. -/
theorem addOrUpdate_imported_id_errors (env : Env) (bm : BitMap) (w : Warnings)
    (c : Component) (key : String) (gfiles : List FileRec)
    (restg : List (String × List FileRec)) (fc : BitMapEntry) (rd : String)
    (hgrp : groupFilesByComponentId c.componentId c.files bm = (key, gfiles) :: restg)
    (hkey : key ≠ "")
    (hfc : bm.getComponent key true = some fc)
    (hfcExact : bm.getComponentExact fc.id = some fc)
    (hrd : fc.rootDir = some rd) (hrdne : rd ≠ "")
    (hsomefile : ∃ f ∈ gfiles,
      env.isAutoGen (env.pathJoin env.consumerPath f.relativePath) = false) :
    (strTruthy env.idArg = false →
      addOrUpdateExistingComponentsInBitMap env bm w c =
        .error (.missingIdImported (BitId.parse key).toStringWithoutVersion)) ∧
    (∀ idv, env.idArg = some idv → idv ≠ "" →
      (BitId.parse key).toStringWithoutScopeAndVersion ≠ idv →
      (BitId.parse key).toStringWithoutVersion ≠ idv →
      addOrUpdateExistingComponentsInBitMap env bm w c =
        .error (.incorrectIdImported (BitId.parse key).toStringWithoutVersion idv)) := by
  have hkeyb : (key == "") = false := beq_eq_false_iff_ne.mpr hkey
  have hrdb : (rd == "") = false := beq_eq_false_iff_ne.mpr hrdne
  constructor
  · intro hid
    have hlist := processFoundFiles_err env key (BitId.parse key) fc
      (.missingIdImported (BitId.parse key).toStringWithoutVersion)
      (fun bm2 w2 f hne hex =>
        processFoundFile_missingId env bm2 w2 key (BitId.parse key) fc rd f
          hne hex hrd hkeyb hrdb hid)
      gfiles bm w hfcExact hsomefile
    unfold addOrUpdateExistingComponentsInBitMap
    rw [hgrp]
    simp only [addOrUpdateGroups, hfc, hlist, exbind_error]
  · intro idv hidv hidvne hn1 hn2
    have hidvb : (idv == "") = false := beq_eq_false_iff_ne.mpr hidvne
    have hn1b : ((BitId.parse key).toStringWithoutScopeAndVersion == idv) = false :=
      beq_eq_false_iff_ne.mpr hn1
    have hn2b : ((BitId.parse key).toStringWithoutVersion == idv) = false :=
      beq_eq_false_iff_ne.mpr hn2
    have hlist := processFoundFiles_err env key (BitId.parse key) fc
      (.incorrectIdImported (BitId.parse key).toStringWithoutVersion idv)
      (fun bm2 w2 f hne hex =>
        processFoundFile_incorrectId env bm2 w2 key (BitId.parse key) fc rd f idv
          hne hex hrd hkeyb hrdb hidv hidvb hn1b hn2b)
      gfiles bm w hfcExact hsomefile
    unfold addOrUpdateExistingComponentsInBitMap
    rw [hgrp]
    simp only [addOrUpdateGroups, hfc, hlist, exbind_error]

/-- An invocation (no explicit id) whose candidate file "g.js" reconciles
against the Imported entry "ns/imp" with rootDir "rootd". -/
def envC6Base : Env :=
  { bitMap := ⟨[⟨"ns/imp", [⟨"f.js", false, "f.js"⟩], none, Origin.imported,
      some "rootd"⟩]⟩,
    componentPaths := ["g.js"],
    idArg := none,
    mainArg := none, nsArg := none, tests := [], exclude := none, override := false,
    globPlain := fun p => [p],
    globDir := fun _ => [], globIgnore := fun _ => [],
    ignoreDrops := fun _ => false,
    existsFS := fun _ => true, isDirFS := fun _ => false, isAutoGen := fun _ => false,
    formatDsl := fun _ f => f, relToConsumer := fun p => p, toLinux := fun p => p,
    osNormalize := fun p => p, baseName := fun p => p, lastSeg := fun p => p,
    secondLastSeg := fun _ => "ns", fileDirLastSeg := fun _ => "dir",
    fileStem := fun p => p, pathRelative := fun _ p => p,
    pathJoin := fun a b => a ++ "/" ++ b,
    consumerPath := "/c", missingTestFiles := [], isDslPattern := fun _ => false }

/-- The same invocation with the mismatched explicit id "other/id". -/
def envC6Wrong : Env := { envC6Base with idArg := some "other/id" }

/-- The candidate reconciling against the imported entry. -/
def cC6 : Component := ⟨⟨none, some "ns", "imp", none⟩, [⟨"g.js", false, "g.js"⟩], none⟩

theorem addOrUpdate_imported_id_errors_witness :
    addOrUpdateExistingComponentsInBitMap envC6Base envC6Base.bitMap [] cC6 =
      .error (.missingIdImported "ns/imp") ∧
    addOrUpdateExistingComponentsInBitMap envC6Wrong envC6Wrong.bitMap [] cC6 =
      .error (.incorrectIdImported "ns/imp" "other/id") := by
  constructor
  · exact (addOrUpdate_imported_id_errors envC6Base envC6Base.bitMap [] cC6 "ns/imp"
      [⟨"g.js", false, "g.js"⟩] []
      ⟨"ns/imp", [⟨"f.js", false, "f.js"⟩], none, Origin.imported, some "rootd"⟩ "rootd"
      rfl (by decide) rfl rfl rfl (by decide)
      ⟨⟨"g.js", false, "g.js"⟩, by decide, rfl⟩).1 rfl
  · exact (addOrUpdate_imported_id_errors envC6Wrong envC6Wrong.bitMap [] cC6 "ns/imp"
      [⟨"g.js", false, "g.js"⟩] []
      ⟨"ns/imp", [⟨"f.js", false, "f.js"⟩], none, Origin.imported, some "rootd"⟩ "rootd"
      rfl (by decide) rfl rfl rfl (by decide)
      ⟨⟨"g.js", false, "g.js"⟩, by decide, rfl⟩).2 "other/id" rfl (by decide)
      (by decide) (by decide)

/-! ## C7: duplicate candidate ids -/

theorem contains_eq_mem {α : Type} [BEq α] [LawfulBEq α] (l : List α) (a : α) :
    l.contains a = true ↔ a ∈ l := by
  rw [List.contains_iff_exists_mem_beq]
  constructor
  · rintro ⟨a', ha', hb⟩
    rw [beq_iff_eq] at hb
    exact hb ▸ ha'
  · intro h
    exact ⟨a, h, by simp⟩

theorem mem_dedupFirstAux :
    ∀ (l seen : List String) (x : String),
      x ∈ dedupFirstAux l seen ↔ x ∈ l ∧ x ∉ seen := by
  intro l
  induction l with
  | nil => intro seen x; simp [dedupFirstAux]
  | cons a l ih =>
    intro seen x
    unfold dedupFirstAux
    by_cases ha : seen.contains a = true
    · rw [if_pos ha, ih]
      have hmem : a ∈ seen := (contains_eq_mem seen a).mp ha
      simp only [List.mem_cons]
      constructor
      · rintro ⟨h1, h2⟩
        exact ⟨Or.inr h1, h2⟩
      · rintro ⟨h1 | h1, h2⟩
        · exact absurd (h1 ▸ hmem) h2
        · exact ⟨h1, h2⟩
    · rw [if_neg ha]
      have hmem : a ∉ seen := fun hc => ha ((contains_eq_mem seen a).mpr hc)
      simp only [List.mem_cons, ih]
      constructor
      · rintro (h1 | ⟨h1, h2⟩)
        · exact ⟨Or.inl h1, h1 ▸ hmem⟩
        · refine ⟨Or.inr h1, fun hc => h2 (Or.inr hc)⟩
      · rintro ⟨h1 | h1, h2⟩
        · exact Or.inl h1
        · by_cases hxa : x = a
          · exact Or.inl hxa
          · exact Or.inr ⟨h1, by simp [hxa, h2]⟩

theorem mem_dedupFirst (l : List String) (x : String) :
    x ∈ dedupFirst l ↔ x ∈ l := by
  unfold dedupFirst
  rw [mem_dedupFirstAux]
  simp

theorem filter_key_length {α : Type} (xs : List (String × α)) (k : String) :
    (xs.filter (fun kv => kv.fst == k)).length = (xs.map Prod.fst).count k := by
  induction xs with
  | nil => rfl
  | cons kv rest ih =>
    by_cases h : kv.fst = k
    · rw [List.filter_cons_of_pos (by simp [h]), List.map_cons, List.count_cons]
      simp [ih, h]
    · rw [List.filter_cons_of_neg (by simp [h]), List.map_cons, List.count_cons]
      simp [ih, h]

theorem validateNoDuplicateIds_dup (cs : List Component) (k : String)
    (hk : 2 ≤ (cs.map (fun c => c.componentId.toString)).count k) :
    ∃ ds, k ∈ ds ∧ validateNoDuplicateIds cs = .error (.duplicateIds ds) := by
  have hkeys : (cs.map (fun c => (c.componentId.toString, c))).map Prod.fst =
      cs.map (fun c => c.componentId.toString) := by
    simp [List.map_map, Function.comp]
  have hmemk : k ∈ (cs.map (fun c => (c.componentId.toString, c))).map Prod.fst := by
    rw [hkeys]
    exact List.count_pos_iff.mp (by omega)
  have hgrp : (k, ((cs.map (fun c => (c.componentId.toString, c))).filter
        (fun kv => kv.fst == k)).map Prod.snd) ∈
      groupByKey (cs.map (fun c => (c.componentId.toString, c))) := by
    unfold groupByKey
    exact List.mem_map_of_mem _ ((mem_dedupFirst _ _).mpr hmemk)
  have hlen : 1 < (((cs.map (fun c => (c.componentId.toString, c))).filter
      (fun kv => kv.fst == k)).map Prod.snd).length := by
    rw [List.length_map, filter_key_length, hkeys]
    omega
  have hdup : (k, ((cs.map (fun c => (c.componentId.toString, c))).filter
        (fun kv => kv.fst == k)).map Prod.snd) ∈
      (groupByKey (cs.map (fun c => (c.componentId.toString, c)))).filter
        (fun g => decide (g.2.length > 1)) :=
    List.mem_filter.mpr ⟨hgrp, by simpa using hlen⟩
  refine ⟨((groupByKey (cs.map (fun c => (c.componentId.toString, c)))).filter
      (fun g => decide (g.2.length > 1))).map (fun g => g.1),
    List.mem_map_of_mem _ hdup, ?_⟩
  unfold validateNoDuplicateIds
  rw [if_neg ?_]
  intro hc
  rw [List.isEmpty_iff] at hc
  exact List.ne_nil_of_mem hdup hc

/-- C7: in a multi-candidate invocation (more than one resolved path, no
explicit id, here with no test patterns), if two candidates resolve to the
same final id string, the whole operation is rejected with the
duplicate-id error naming that id among the conflicting identifiers, and
the durable index is unchanged (the rejection happens before the index is
persisted). -/
theorem addAction_duplicate_ids (env : Env) (stats : List PathStat)
    (cs : List Component) (k : String)
    (hmt : env.missingTestFiles = [])
    (hres : resolveComponentPathsStats env = .ok stats)
    (hmulti : 1 < stats.length)
    (hnoid : strTruthy env.idArg = false)
    (htests : env.tests = [])
    (hcands : stats.mapM (fun s => addOneComponent env [s] env.bitMap) = .ok cs)
    (hk : 2 ≤ (cs.map (fun c => c.componentId.toString)).count k) :
    ∃ ds, k ∈ ds ∧ addAction env = .error (.duplicateIds ds) ∧
      durableBitMapAfter env = env.bitMap := by
  obtain ⟨ds, hkds, hval⟩ := validateNoDuplicateIds_dup cs k hk
  have hmain : addAction env = .error (.duplicateIds ds) := by
    unfold addAction
    rw [hmt]
    rw [if_neg (by decide)]
    rw [hres, exbind_ok]
    rw [if_pos (by simp [hmulti, hnoid])]
    rw [htests]
    simp only [List.isEmpty_nil, if_true, List.map_nil]
    have hstats2 :
        stats.filter (fun s => !(([] : List String).contains s.path)) = stats :=
      List.filter_eq_self.mpr (fun a _ => rfl)
    rw [hstats2, hcands, exbind_ok, hval, exbind_error]
  exact ⟨ds, hkds, hmain, by unfold durableBitMapAfter; rw [hmain]⟩

/-- An invocation of the two file paths "x" and "y" with no id, both
deriving the default id "ns/a". -/
def envC7 : Env :=
  { bitMap := ⟨[]⟩,
    componentPaths := ["x", "y"],
    idArg := none,
    mainArg := none, nsArg := none, tests := [], exclude := none, override := false,
    globPlain := fun p => [p],
    globDir := fun _ => [], globIgnore := fun _ => [],
    ignoreDrops := fun _ => false,
    existsFS := fun _ => true, isDirFS := fun _ => false, isAutoGen := fun _ => false,
    formatDsl := fun _ f => f, relToConsumer := fun p => p, toLinux := fun p => p,
    osNormalize := fun p => p, baseName := fun p => p, lastSeg := fun p => p,
    secondLastSeg := fun _ => "ns", fileDirLastSeg := fun _ => "ns",
    fileStem := fun _ => "a", pathRelative := fun _ p => p,
    pathJoin := fun a b => a ++ "/" ++ b,
    consumerPath := "/c", missingTestFiles := [], isDslPattern := fun _ => false }

theorem addAction_duplicate_ids_witness :
    ∃ ds, "ns/a" ∈ ds ∧ addAction envC7 = .error (.duplicateIds ds) ∧
      durableBitMapAfter envC7 = envC7.bitMap :=
  addAction_duplicate_ids envC7 [⟨"x", false⟩, ⟨"y", false⟩]
    [⟨⟨none, some "ns", "a", none⟩, [⟨"x", false, "x"⟩], none⟩,
     ⟨⟨none, some "ns", "a", none⟩, [⟨"y", false, "y"⟩], none⟩]
    "ns/a" rfl rfl (by decide) rfl rfl rfl (by decide)

/-! ## C9: test-file fallback for unresolvable paths -/

/-- An invocation whose component path glob-resolves to "a.js", which the
ignore rules then drop (zero entries after ignore-filtering, one before),
with a test pattern and an explicit id supplied. -/
def envC9 : Env :=
  { bitMap := ⟨[]⟩,
    componentPaths := ["a.js"],
    idArg := some "ns/x",
    mainArg := none, nsArg := none, tests := ["t.spec.js"], exclude := none,
    override := false,
    globPlain := fun p => [p],
    globDir := fun _ => [], globIgnore := fun _ => [],
    ignoreDrops := fun p => p == "a.js",
    existsFS := fun _ => true, isDirFS := fun _ => false, isAutoGen := fun _ => false,
    formatDsl := fun _ f => f, relToConsumer := fun p => p, toLinux := fun p => p,
    osNormalize := fun p => p, baseName := fun p => p, lastSeg := fun p => p,
    secondLastSeg := fun _ => "ns", fileDirLastSeg := fun _ => "ns",
    fileStem := fun _ => "a", pathRelative := fun _ p => p,
    pathJoin := fun a b => a ++ "/" ++ b,
    consumerPath := "/c", missingTestFiles := [], isDslPattern := fun _ => false }

/-- C9 counterexample: with test patterns and an explicit id supplied and
zero filesystem entries left *after* ignore-filtering (but one before),
the resolver does not fall back to the test files: it raises the NoFiles
error.  The fallback is keyed on the glob result *before* ignore-filtering
being empty. -/
theorem testFallback_counterexample :
    envC9.tests ≠ [] ∧
    strTruthy envC9.idArg = true ∧
    (envC9.componentPaths.flatMap envC9.globPlain).filter
      (fun p => !envC9.ignoreDrops p) = [] ∧
    resolveComponentPathsStats envC9 = .error (.noFiles ["a.js"]) :=
  ⟨by decide, rfl, rfl, rfl⟩

/-- C9 (amended): when the user-supplied component paths resolve to zero
filesystem entries *before* ignore-filtering (the glob itself matches
nothing) and the caller supplied test-file patterns and a truthy explicit
id, the resolver falls back to tracking the test files alone: it globs the
test patterns and validates their matches as the component paths instead
of raising the path-not-exists error. -/
theorem testFallback_amended (env : Env)
    (ht : env.tests ≠ []) (hid : strTruthy env.idArg = true)
    (hempty : env.componentPaths.flatMap env.globPlain = []) :
    resolveComponentPathsStats env =
      validatePathsRes env (env.tests.flatMap env.globPlain) := by
  unfold resolveComponentPathsStats
  rw [hempty]
  rw [if_pos ?_]
  simp [hid, List.isEmpty_iff, ht]

/-- An invocation whose component path "comp" globs to nothing while the
test pattern "t.js" globs to itself. -/
def envC9b : Env :=
  { envC9 with
    componentPaths := ["comp"],
    idArg := some "ns/x",
    tests := ["t.js"],
    globPlain := fun p => if p == "t.js" then ["t.js"] else [],
    ignoreDrops := fun _ => false }

theorem testFallback_amended_witness :
    resolveComponentPathsStats envC9b =
      validatePathsRes envC9b (envC9b.tests.flatMap envC9b.globPlain) :=
  testFallback_amended envC9b (by decide) rfl rfl
